import Mathlib

/-!
Verification of the GTAWorld Screenshot Editor core
(`src/frontend/src/components/Magician.vue`).

The file shallowly embeds the chat classification engine (`colorMappings`,
`parseChatlog`), the censor-region state machine (`cycleCensorType`,
`applyCensoring`, `drawTextSegment`), the greedy word wrap of `saveImage`,
the filename builder (`buildScreenshotFilename`) and the layer store
(`createChatLayer`, `selectChatLayer`, `removeChatLayer`, `moveChatLayer`,
`resetSession`, `parseChatlog` as a state operation).

JavaScript regular expressions are embedded through a small derivative-based
matcher (`RE`, `reMatch`); purely literal patterns are embedded as substring
tests.  Floating point text measurement (`ctx.measureText`) is abstracted as
an arbitrary `width` function parameter: the wrap and censor algorithms use
widths only for control flow through comparisons, never for the character
level bookkeeping the claims are about.
-/

namespace Magician

/-! ### A tiny regular-expression engine (Brzozowski derivatives)

Used to embed the JS `RegExp.test` calls of `colorMappings` faithfully.
`dotRE` mirrors `.` (any char except line terminators), `padRE` is the
implicit "anything" padding around an unanchored `test`. -/

inductive RE where
  | emp : RE
  | eps : RE
  | cls (p : Char → Bool) : RE
  | seq (a b : RE) : RE
  | alt (a b : RE) : RE
  | star (a : RE) : RE

def RE.nullable : RE → Bool
  | .emp => false
  | .eps => true
  | .cls _ => false
  | .seq a b => a.nullable && b.nullable
  | .alt a b => a.nullable || b.nullable
  | .star _ => true

def RE.deriv : RE → Char → RE
  | .emp, _ => .emp
  | .eps, _ => .emp
  | .cls p, x => if p x then .eps else .emp
  | .seq a b, x => if a.nullable then .alt (.seq (a.deriv x) b) (b.deriv x) else .seq (a.deriv x) b
  | .alt a b, x => .alt (a.deriv x) (b.deriv x)
  | .star a, x => .seq (a.deriv x) (.star a)

/-- Whole-list match of a regular expression. -/
def reMatch (re : RE) (s : List Char) : Bool :=
  (s.foldl RE.deriv re).nullable

/-- Literal character. -/
def reChr (c : Char) : RE := .cls (fun x => x = c)

/-- Literal string. -/
def reLit (s : String) : RE := s.data.foldr (fun c r => .seq (reChr c) r) .eps

def reSeqs (l : List RE) : RE := l.foldr .seq .eps

/-- JS `.`: any character except a line terminator. -/
def dotRE : RE := .cls (fun c => !(c = '\n') && !(c = '\r'))

/-- One or more `.` characters (the `.+?` pieces; laziness is irrelevant
for `test`). -/
def dotPlus : RE := .seq dotRE (.star dotRE)

/-- Zero or more `.` characters (`.*`). -/
def dotStar : RE := .star dotRE

/-- Arbitrary characters: the implicit padding of an unanchored search. -/
def padRE : RE := .star (.cls (fun _ => true))

/-- `re.test s` for an unanchored JS regex. -/
def reTest (re : RE) (s : List Char) : Bool :=
  reMatch (reSeqs [padRE, re, padRE]) s

/-- `re.test s` for a `^`-anchored JS regex. -/
def reTestAnchored (re : RE) (s : List Char) : Bool :=
  reMatch (.seq re padRE) s

/-- JS word character (`\w`): ASCII letter, digit or underscore. -/
def wordChar (c : Char) : Bool := c.isAlpha || c.isDigit || c = '_'

/-- Search RE for `\bw\b` (a word with boundaries on both sides). -/
def wordBoundedLit (w : String) : RE :=
  reSeqs [RE.alt .eps (.seq padRE (.cls (fun c => !wordChar c))),
          reLit w,
          RE.alt .eps (.seq (.cls (fun c => !wordChar c)) padRE)]

/-- Lower-cased character data of a string, for `/i` patterns. -/
def lowerChars (s : String) : List Char := s.data.map Char.toLower

/-- Does `needle` occur as a contiguous sublist of the second list? -/
def subListOf (needle : List Char) : List Char → Bool
  | [] => needle.isEmpty
  | c :: rest => needle.isPrefixOf (c :: rest) || subListOf needle rest

/-- Case-sensitive substring containment (`/literal/.test(s)`). -/
def containsLit (lit : String) (s : String) : Bool := subListOf lit.data s.data

/-- Case-insensitive substring containment (`/literal/i.test(s)`,
`lit` given in lower case). -/
def containsLitCI (lit : String) (s : String) : Bool := subListOf lit.data (lowerChars s)

/-! ### Split patterns (JS `String.split` with a single capture group)

`String.split(/(pat)/)` splits at every match of `pat` and keeps the matched
separators in the output array (with empty fragments at the ends when a match
is leading/trailing).  A matcher takes the text at a candidate position and
returns the matched prefix and the remainder when the pattern matches there. -/

/-- Matcher for a literal separator pattern such as `(\[!])`. -/
def litMatcher (lit : List Char) (s : List Char) : Option (List Char × List Char) :=
  if lit.isPrefixOf s then some (lit, s.drop lit.length) else none

/-- Matcher for `\[\$[^\]]*\]` (the `(\[\$[^\]]*\])` split pattern). -/
def brDollarMatcher (s : List Char) : Option (List Char × List Char) :=
  if ['[', '$'].isPrefixOf s then
    let run := (s.drop 2).takeWhile (fun c => !(c = ']'))
    match (s.drop 2).drop run.length with
    | ']' :: rest => some ('[' :: '$' :: (run ++ [']']), rest)
    | _ => none
  else none

/-- Matcher for `\(\$[^\)]*\)` (the `(\(\$[^\)]*\))` split pattern). -/
def parDollarMatcher (s : List Char) : Option (List Char × List Char) :=
  if ['(', '$'].isPrefixOf s then
    let run := (s.drop 2).takeWhile (fun c => !(c = ')'))
    match (s.drop 2).drop run.length with
    | ')' :: rest => some ('(' :: '$' :: (run ++ [')']), rest)
    | _ => none
  else none

/-- Matcher for ` PH: .*` (the `( PH: .*)` split pattern); `.` stops at
line terminators. -/
def phMatcher (s : List Char) : Option (List Char × List Char) :=
  if " PH: ".data.isPrefixOf s then
    let tail := s.drop 5
    let run := tail.takeWhile (fun c => !(c = '\n') && !(c = '\r'))
    some (" PH: ".data ++ run, tail.drop run.length)
  else none

/-- First match of a matcher inside a list: text before the match, the
matched text, and the text after it. -/
def findOccBy (m : List Char → Option (List Char × List Char)) :
    List Char → Option (List Char × List Char × List Char)
  | [] =>
    match m [] with
    | some p => some ([], p.1, p.2)
    | none => none
  | c :: rest =>
    match m (c :: rest) with
    | some p => some ([], p.1, p.2)
    | none =>
      match findOccBy m rest with
      | none => none
      | some q => some (c :: q.1, q.2.1, q.2.2)

/-- Split at every match, keeping the matched separators (fuelled; every
matcher used consumes at least one character, so `length + 1` fuel is
always enough). -/
def splitKeepByGo (m : List Char → Option (List Char × List Char)) :
    Nat → List Char → List (List Char)
  | 0, s => [s]
  | fuel + 1, s =>
    match findOccBy m s with
    | none => [s]
    | some (pre, matched, post) => pre :: matched :: splitKeepByGo m fuel post

/-- JS `s.split(/(pat)/)` for the matcher of `pat`. -/
def jsSplitKeep (m : List Char → Option (List Char × List Char)) (s : String) :
    List String :=
  (splitKeepByGo m (s.length + 1) s.data).map List.asString

/-- JS `/pat/.test(part)` for the matcher of `pat`. -/
def splitMatcherTest (m : List Char → Option (List Char × List Char)) (s : String) : Bool :=
  (findOccBy m s.data).isSome

/-! ### Timestamps and whitespace -/

/-- JS `\s` restricted to ASCII (the inputs of interest are ASCII). -/
def jsWs (c : Char) : Bool :=
  c = ' ' || c = '\t' || c = '\n' || c = '\r' || c = '\x0b' || c = '\x0c'

/-- `processedText.replace(/^\[\d{2}:\d{2}:\d{2}\]\s*/, '')`. -/
def stripTs (s : String) : String :=
  match s.data with
  | '[' :: d1 :: d2 :: ':' :: d3 :: d4 :: ':' :: d5 :: d6 :: ']' :: rest =>
    if d1.isDigit && d2.isDigit && d3.isDigit && d4.isDigit && d5.isDigit && d6.isDigit then
      (rest.dropWhile jsWs).asString
    else s
  | _ => s

/-! ### The pattern table (`colorMappings`) -/

/-- One entry of `colorMappings`.  `pattern` embeds the `RegExp.test` of the
source entry; `splitPattern`, when present, is the matcher of the secondary
split pattern. -/
structure ColorMapping where
  pattern : String → Bool
  color : String
  splitPattern : Option (List Char → Option (List Char × List Char)) := none
  markerColor : Option String := none
  fullLine : Bool := false
  checkPlayerName : Bool := false

/-- The ordered rule table, entry for entry as in the source. -/
def colorMappings : List ColorMapping := [
  -- /^\*\* \[S: .+? \| CH: .+?\]/i, fullLine
  { pattern := fun s =>
      reTestAnchored (reSeqs [reLit "** [s: ", dotPlus, reLit " | ch: ", dotPlus, reLit "]"])
        (lowerChars s),
    color := "rgb(214, 207, 140)", fullLine := true },
  -- /\(cellphone\)/i, fullLine, checkPlayerName
  { pattern := fun s => containsLitCI "(cellphone)" s,
    color := "rgb(251, 247, 36)", fullLine := true, checkPlayerName := true },
  -- /says:|shouts:/i
  { pattern := fun s => containsLitCI "says:" s || containsLitCI "shouts:" s,
    color := "rgb(241, 241, 241)" },
  -- /\(Car\)/i
  { pattern := fun s => containsLitCI "(car)" s, color := "rgb(251, 247, 36)" },
  -- /^\*/
  { pattern := fun s => "*".data.isPrefixOf s.data, color := "rgb(194, 163, 218)" },
  -- /\bwhispers\b/i
  { pattern := fun s => reMatch (wordBoundedLit "whispers") (lowerChars s),
    color := "rgb(237, 168, 65)" },
  -- /\bYou paid\b|\bpaid you\b|\byou gave\b|\bgave you\b|\bYou received\b/i
  { pattern := fun s =>
      ["you paid", "paid you", "you gave", "gave you", "you received"].any
        (fun w => reMatch (wordBoundedLit w) (lowerChars s)),
    color := "rgb(86, 214, 75)" },
  -- /g\)/i
  { pattern := fun s => containsLitCI "g)" s, color := "rgb(255, 255, 0)" },
  -- /\[low\]:|\[lower\]:/i
  { pattern := fun s => containsLitCI "[low]:" s || containsLitCI "[lower]:" s,
    color := "rgb(150, 149, 149)" },
  -- /\[!]/ with split /(\[!])/
  { pattern := fun s => containsLit "[!]" s, color := "rgb(255, 255, 255)",
    splitPattern := some (litMatcher "[!]".data), markerColor := some "rgb(255, 0, 195)" },
  -- /\[INFO]:/ with split /(\[INFO]:)/
  { pattern := fun s => containsLit "[INFO]:" s, color := "rgb(255, 255, 255)",
    splitPattern := some (litMatcher "[INFO]:".data), markerColor := some "rgb(27, 124, 222)" },
  -- /\[ALERT]/ with split /(\[ALERT])/
  { pattern := fun s => containsLit "[ALERT]" s, color := "rgb(255, 255, 255)",
    splitPattern := some (litMatcher "[ALERT]".data), markerColor := some "rgb(27, 124, 222)" },
  -- /\[GYM]/ with split /(\[GYM])/
  { pattern := fun s => containsLit "[GYM]" s, color := "rgb(255, 255, 255)",
    splitPattern := some (litMatcher "[GYM]".data), markerColor := some "rgb(22, 106, 189)" },
  -- /\[advertisement]/i
  { pattern := fun s => containsLitCI "[advertisement]" s, color := "rgb(127, 239, 43)" },
  -- /\(\( \(PM/i
  { pattern := fun s => containsLitCI "(( (pm" s, color := "rgb(239, 227, 0)" },
  -- /\(\( \(/i
  { pattern := fun s => containsLitCI "(( (" s, color := "rgb(139, 138, 138)" },
  -- /\[megaphone]/i
  { pattern := fun s => containsLitCI "[megaphone]" s, color := "rgb(241, 213, 3)" },
  -- /\[microphone]/i
  { pattern := fun s => containsLitCI "[microphone]" s, color := "rgb(246, 218, 3)" },
  -- /\[intercom]/i
  { pattern := fun s => containsLitCI "[intercom]" s, color := "rgb(26, 131, 232)" },
  -- /\[Character kill]/ with split /(\[Character kill])/
  { pattern := fun s => containsLit "[Character kill]" s, color := "rgb(240, 0, 0)",
    splitPattern := some (litMatcher "[Character kill]".data),
    markerColor := some "rgb(56, 150, 243)" },
  -- /\[\$.*g\)/ with split /(\[\$[^\]]*\])/
  { pattern := fun s => reTest (reSeqs [reLit "[$", dotStar, reLit "g)"]) s.data,
    color := "rgb(255, 255, 0)", splitPattern := some brDollarMatcher,
    markerColor := some "rgb(86, 214, 75)" },
  -- /\(\$.*g\)/ with split /(\(\$[^\)]*\))/
  { pattern := fun s => reTest (reSeqs [reLit "($", dotStar, reLit "g)"]) s.data,
    color := "rgb(255, 255, 0)", splitPattern := some parDollarMatcher,
    markerColor := some "rgb(86, 214, 75)" },
  -- / PH: .*g\)/ with split /( PH: .*)/
  { pattern := fun s => reTest (reSeqs [reLit " PH: ", dotStar, reLit "g)"]) s.data,
    color := "rgb(255, 255, 0)", splitPattern := some phMatcher,
    markerColor := some "rgb(86, 214, 75)" }
]

/-! ### The classifier and parser (`parseChatlog`) -/

structure ParsedLine where
  id : Nat
  text : String
  color : String
deriving DecidableEq, Repr

/-- The fallback loop at the end of `parseChatlog`'s per-line classification:
first rule in table order whose detection pattern matches; `color || 'white'`. -/
def fallbackColor (index : Nat) (processedText : String) : ParsedLine :=
  match colorMappings.find? (fun m => m.pattern processedText) with
  | some m => ⟨index, processedText, m.color⟩
  | none => ⟨index, processedText, "white"⟩

/-- The non-cellphone branch of the per-line classification: full-line rules,
then split/marker rules, then the fallback loop. -/
def classifyRest (index : Nat) (processedText : String) : ParsedLine :=
  match colorMappings.find? (fun m => m.fullLine && !m.checkPlayerName &&
      m.pattern processedText) with
  | some fullLinePattern => ⟨index, processedText, fullLinePattern.color⟩
  | none =>
    match colorMappings.find? (fun m => m.splitPattern.isSome && m.pattern processedText) with
    | some sp =>
      match sp.splitPattern, sp.markerColor with
      | some matcher, some mc =>
        let parts := jsSplitKeep matcher processedText
        if parts.length > 1 then
          ⟨index,
           String.join (parts.map (fun part =>
             if splitMatcherTest matcher part then
               "<span style=\"color: " ++ mc ++ "\">" ++ part ++ "</span>"
             else
               "<span style=\"color: " ++ sp.color ++ "\">" ++ part ++ "</span>")),
           "white"⟩
        else
          -- parts.length <= 1: `color` stays undefined, so `color || 'white'`
          ⟨index, processedText, "white"⟩
      | _, _ => fallbackColor index processedText
    | none => fallbackColor index processedText

/-- The `processedText` a line is classified against: the raw line, with the
leading timestamp stripped when the option is enabled. -/
def processedLineOf (strip : Bool) (line : String) : String :=
  if strip then stripTs line else line

/-- Per-line classification of `parseChatlog`: optional timestamp strip, then
the player-aware cellphone check (`processedText.startsWith(characterName)`
embedded as a character-list prefix test), then `classifyRest`. -/
def classifyLine (strip : Bool) (characterName : String) (index : Nat) (line : String) :
    ParsedLine :=
  match colorMappings.find? (fun m => m.checkPlayerName &&
      m.pattern (processedLineOf strip line)) with
  | some cellphonePattern =>
    if characterName = "" then classifyRest index (processedLineOf strip line)
    else if characterName.data.isPrefixOf (processedLineOf strip line).data then
      ⟨index, processedLineOf strip line, "rgb(255, 255, 255)"⟩
    else ⟨index, processedLineOf strip line, cellphonePattern.color⟩
  | none => classifyRest index (processedLineOf strip line)

/-- JS `String.split` on a single separator character (keeps empty
fragments; `"".split(sep)` is `[""]`). -/
def splitChar (sep : Char) : List Char → List (List Char)
  | [] => [[]]
  | c :: rest =>
    if c = sep then [] :: splitChar sep rest
    else
      match splitChar sep rest with
      | [] => [[c]]
      | w :: ws => (c :: w) :: ws

/-- JS `trim` (both ends, ASCII whitespace). -/
def trimStartWs (l : List Char) : List Char := l.dropWhile jsWs

def trimEndWs (l : List Char) : List Char := (l.reverse.dropWhile jsWs).reverse

def jsTrim (l : List Char) : List Char := trimEndWs (trimStartWs l)

/-- `sourceText.split('\n').filter(line => line.trim() !== '')`. -/
def survivingLines (text : String) : List String :=
  ((splitChar '\n' text.data).map List.asString).filter
    (fun line => !(jsTrim line.data).isEmpty)

/-- The pure core of `parseChatlog`: split, drop blank lines, classify each
surviving line with its post-filter index as `id`.  Empty input yields `[]`
(the early return through `if (!sourceText)`). -/
def parseChatlogPure (strip : Bool) (characterName : String) (text : String) :
    List ParsedLine :=
  if text = "" then []
  else (survivingLines text).enum.map (fun p => classifyLine strip characterName p.1 p.2)

/-! ### Censor regions (`CensorType`, `censoredRegions`, `cycleCensorType`) -/

inductive CensorType where
  | none
  | invisible
  | blackbar
  | blur
deriving DecidableEq, Repr

structure CensoredRegion where
  lineIndex : Int
  startOffset : Nat
  endOffset : Nat
  type : CensorType
  layerId : Int
deriving DecidableEq, Repr

/-- The reactive `selectedText` record. -/
structure SelectedTextState where
  layerId : Int
  lineIndex : Int
  startOffset : Nat
  endOffset : Nat
  text : String
deriving DecidableEq, Repr

/-- The exact-key lookup of `cycleCensorType`'s `findIndex`. -/
def keyMatches (sel : SelectedTextState) (r : CensoredRegion) : Bool :=
  r.layerId == sel.layerId && r.lineIndex == sel.lineIndex &&
  r.startOffset == sel.startOffset && r.endOffset == sel.endOffset

/-- The region pushed for a fresh selection (state `Invisible`). -/
def freshRegion (sel : SelectedTextState) : CensoredRegion :=
  ⟨sel.lineIndex, sel.startOffset, sel.endOffset, .invisible, sel.layerId⟩

/-- Core of `cycleCensorType`: `findIndex` locates the first region with the
selection's exact key; no match appends a fresh `Invisible` region (`push`),
a match advances its `type` in place, `splice`-removing it past `Blur`; the
JS `switch` has no case for `None`, so such a region is left unchanged. -/
def cycleRegions (sel : SelectedTextState) : List CensoredRegion → List CensoredRegion
  | [] => [freshRegion sel]
  | r :: rest =>
    if keyMatches sel r then
      match r.type with
      | .invisible => { r with type := .blackbar } :: rest
      | .blackbar => { r with type := .blur } :: rest
      | .blur => rest
      | .none => r :: rest
    else r :: cycleRegions sel rest

/-- `cycleCensorType` as a function on the censor-region list: early return
when the selection is invalid (`lineIndex === -1` or `layerId === -1`). -/
def cycleCensorType (sel : SelectedTextState) (regions : List CensoredRegion) :
    List CensoredRegion :=
  if sel.lineIndex = -1 then regions
  else if sel.layerId = -1 then regions
  else cycleRegions sel regions

/-! ### The overlay substitution (`applyCensoring`) -/

/-- Escape of the censored slice (the five sequential `replace` calls; the
replacements introduce no characters that a later replace would rewrite, so
the sequential passes coincide with a per-character map). -/
def escapeHtmlChar (c : Char) : String :=
  if c = '&' then "&amp;"
  else if c = '<' then "&lt;"
  else if c = '>' then "&gt;"
  else if c = '"' then "&quot;"
  else if c = '\'' then "&#039;"
  else String.singleton c

def escapeHtml (s : String) : String := String.join (s.data.map escapeHtmlChar)

/-- JS `text.slice(a, b)` for `0 ≤ a`, `0 ≤ b` (empty when `a ≥ b`, clamped
at the length). -/
def sliceStr (s : String) (a b : Nat) : String := ((s.data.take b).drop a).asString

/-- JS `text.slice(a)`. -/
def sliceFrom (s : String) (a : Nat) : String := (s.data.drop a).asString

/-- The `<span>` wrapper emitted for a censored slice; the `switch` has no
case for `None`, so nothing is appended then. -/
def censorSpan (t : CensorType) (escapedText : String) : String :=
  match t with
  | .invisible => "<span class=\"censored-invisible\">" ++ escapedText ++ "</span>"
  | .blackbar => "<span class=\"censored-blackbar\">" ++ escapedText ++ "</span>"
  | .blur => "<span class=\"censored-blur\">" ++ escapedText ++ "</span>"
  | .none => ""

/-- The line's regions as `applyCensoring` collects them: filter by layer and
line, then sort ascending by `startOffset` (`.sort((a, b) => a.startOffset -
b.startOffset)`). -/
def regionsForLine (allRegions : List CensoredRegion) (layerId lineIndex : Int) :
    List CensoredRegion :=
  (allRegions.filter (fun r => r.layerId == layerId && r.lineIndex == lineIndex)).insertionSort
    (fun a b => a.startOffset ≤ b.startOffset)

/-- The `for (const region of regions)` loop of `applyCensoring`. -/
def censorFold (text : String) : List CensoredRegion → String → Nat → String
  | [], result, lastIndex => result ++ sliceFrom text lastIndex
  | r :: rest, result, lastIndex =>
    censorFold text rest
      (result ++ sliceStr text lastIndex r.startOffset ++
        censorSpan r.type (escapeHtml (sliceStr text r.startOffset r.endOffset)))
      r.endOffset

/-- `applyCensoring(text, lineIndex, layerId)` against a censor-region list. -/
def applyCensoring (text : String) (lineIndex : Int) (layerId : Int)
    (allRegions : List CensoredRegion) : String :=
  let regions := regionsForLine allRegions layerId lineIndex
  if regions.isEmpty then text
  else censorFold text regions "" 0

/-- Modelled from the spec: rendering handles overlap "by processing regions
sorted by `startOffset` and treating only the first matching region at any
given offset (first-match-wins during scan)" — a later region contributes only
the part of its span not already covered, and is skipped when fully covered. -/
def firstMatchFold (text : String) : List CensoredRegion → String → Nat → String
  | [], result, lastIndex => result ++ sliceFrom text lastIndex
  | r :: rest, result, lastIndex =>
    let effStart := max r.startOffset lastIndex
    if r.endOffset ≤ effStart then firstMatchFold text rest result lastIndex
    else firstMatchFold text rest
      (result ++ sliceStr text lastIndex effStart ++
        censorSpan r.type (escapeHtml (sliceStr text effStart r.endOffset)))
      r.endOffset

/-- Modelled from the spec: `applyCensoring` under first-match-wins overlap
semantics. -/
def applyCensoringFirstMatch (text : String) (lineIndex : Int) (layerId : Int)
    (allRegions : List CensoredRegion) : String :=
  let regions := regionsForLine allRegions layerId lineIndex
  if regions.isEmpty then text
  else firstMatchFold text regions "" 0

/-! ### The export segment scan (`drawTextSegment`)

Only the censoring decisions are embedded: the emitted draw calls as
`(text, treatment)` pairs, where `none` is an uncensored
`drawTextWithOutline` and `some t` a slice censored with `t`.  The pixel
positions (`currentX`, measured widths) do not influence the decisions. -/

/-- The `censoredRegions.value.find(...)` of the scan loop: first region in
STORE order whose start or end falls inside the remaining window. -/
def segFind (regions : List CensoredRegion) (layerId lineIndex : Int)
    (currentOffset remLen : Nat) : Option CensoredRegion :=
  regions.find? (fun r => r.layerId == layerId && r.lineIndex == lineIndex &&
    ((decide (r.startOffset ≥ currentOffset) && decide (r.startOffset < currentOffset + remLen)) ||
     (decide (r.endOffset > currentOffset) && decide (r.endOffset ≤ currentOffset + remLen))))

/-- The `while (remainingText.length > 0)` loop.  Fuelled: the source loop
does not terminate when a malformed region (`endOffset ≤ startOffset`)
is matched without progress; the wrapper supplies enough fuel for every
well-formed input. -/
def drawTextSegmentGo (regions : List CensoredRegion) (layerId lineIndex : Int) :
    Nat → Nat → List Char → List (String × Option CensorType)
  | 0, _, _ => []
  | fuel + 1, currentOffset, remaining =>
    if remaining.isEmpty then []
    else
      match segFind regions layerId lineIndex currentOffset remaining.length with
      | none => [(remaining.asString, none)]
      | some r =>
        -- uncensoredLength = r.startOffset - currentOffset, drawn when > 0
        let pre : List (String × Option CensorType) :=
          if currentOffset < r.startOffset then
            [((remaining.take (r.startOffset - currentOffset)).asString, none)]
          else []
        let cur1 := if currentOffset < r.startOffset then r.startOffset else currentOffset
        let rem1 := if currentOffset < r.startOffset then
            remaining.drop (r.startOffset - currentOffset)
          else remaining
        -- censoredLength = r.endOffset - cur1, consumed when > 0
        if cur1 < r.endOffset then
          pre ++ [((rem1.take (r.endOffset - cur1)).asString, some r.type)] ++
            drawTextSegmentGo regions layerId lineIndex fuel r.endOffset
              (rem1.drop (r.endOffset - cur1))
        else pre ++ drawTextSegmentGo regions layerId lineIndex fuel cur1 rem1

/-- `drawTextSegment(text, …, lineStartPos, lineIndex, layerId)` as the list
of emitted `(text, treatment)` draws. -/
def drawTextSegments (regions : List CensoredRegion) (layerId lineIndex : Int)
    (lineStartPos : Nat) (text : String) : List (String × Option CensorType) :=
  drawTextSegmentGo regions layerId lineIndex
    (text.length + 2 * regions.length + 2) lineStartPos text.data

/-! ### C1: the censor cycle state machine -/

theorem keyMatches_freshRegion (sel : SelectedTextState) :
    keyMatches sel (freshRegion sel) = true := by
  simp [keyMatches, freshRegion]

theorem keyMatches_set_type (sel : SelectedTextState) (r : CensoredRegion) (t : CensorType) :
    keyMatches sel { r with type := t } = keyMatches sel r := rfl

/-- When no region matches the key, the cycle appends a fresh `Invisible`
region at the end. -/
theorem cycleRegions_not_found (sel : SelectedTextState) (l : List CensoredRegion)
    (h : ∀ r ∈ l, keyMatches sel r = false) :
    cycleRegions sel l = l ++ [freshRegion sel] := by
  induction l with
  | nil => rfl
  | cons r rest ih =>
    have hr := h r (by simp)
    simp [cycleRegions, hr, ih (fun x hx => h x (by simp [hx]))]

/-- A matching region sitting behind non-matching ones is the one advanced. -/
theorem cycleRegions_found_append (sel : SelectedTextState) (l : List CensoredRegion)
    (r0 : CensoredRegion) (h : ∀ r ∈ l, keyMatches sel r = false)
    (h0 : keyMatches sel r0 = true) :
    cycleRegions sel (l ++ [r0]) = l ++ (match r0.type with
      | .invisible => [{ r0 with type := .blackbar }]
      | .blackbar => [{ r0 with type := .blur }]
      | .blur => []
      | .none => [r0]) := by
  induction l with
  | nil => simp [cycleRegions, h0]
  | cons r rest ih =>
    have hr := h r (by simp)
    simp [cycleRegions, hr, ih (fun x hx => h x (by simp [hx]))]

/-- Regions whose key differs from the selection are untouched by a cycle. -/
theorem cycleRegions_filter_frame (sel : SelectedTextState) (l : List CensoredRegion) :
    (cycleRegions sel l).filter (fun r => !keyMatches sel r) =
      l.filter (fun r => !keyMatches sel r) := by
  induction l with
  | nil => simp [cycleRegions, keyMatches_freshRegion]
  | cons r rest ih =>
    by_cases hk : keyMatches sel r = true
    · cases ht : r.type <;>
        simp [cycleRegions, hk, ht, List.filter_cons, keyMatches_set_type]
    · have hk' : keyMatches sel r = false := by
        cases hkk : keyMatches sel r
        · rfl
        · exact absurd hkk hk
      simp [cycleRegions, hk', List.filter_cons, ih]

/-- C1: `cycleCensorType` is a no-op on an invalid selection
(`lineIndex = -1` or `layerId = -1`); on a valid selection whose key has no
existing region, four successive cycles take the key through
absent → Invisible → BlackBar → Blur → absent, mutating the single appended
region rather than duplicating the key; and regions with a different key are
unchanged by every call. -/
theorem claim_C1 (sel : SelectedTextState) (regions : List CensoredRegion) :
    ((sel.lineIndex = -1 ∨ sel.layerId = -1) → cycleCensorType sel regions = regions) ∧
    (sel.lineIndex ≠ -1 → sel.layerId ≠ -1 →
      (∀ r ∈ regions, keyMatches sel r = false) →
      cycleCensorType sel regions = regions ++ [freshRegion sel] ∧
      cycleCensorType sel (cycleCensorType sel regions) =
        regions ++ [{ freshRegion sel with type := .blackbar }] ∧
      cycleCensorType sel (cycleCensorType sel (cycleCensorType sel regions)) =
        regions ++ [{ freshRegion sel with type := .blur }] ∧
      cycleCensorType sel
        (cycleCensorType sel (cycleCensorType sel (cycleCensorType sel regions))) = regions) ∧
    ((cycleCensorType sel regions).filter (fun r => !keyMatches sel r) =
      regions.filter (fun r => !keyMatches sel r)) := by
  refine ⟨?_, ?_, ?_⟩
  · intro h
    rcases h with h | h <;> simp [cycleCensorType, h]
  · intro h1 h2 hnone
    have hvalid : ∀ l, cycleCensorType sel l = cycleRegions sel l := by
      intro l; simp [cycleCensorType, h1, h2]
    have key1 : keyMatches sel (freshRegion sel) = true := keyMatches_freshRegion sel
    have key2 : keyMatches sel { freshRegion sel with type := CensorType.blackbar } = true := by
      rw [keyMatches_set_type]; exact key1
    have key3 : keyMatches sel { freshRegion sel with type := CensorType.blur } = true := by
      rw [keyMatches_set_type]; exact key1
    have s1 : cycleRegions sel regions = regions ++ [freshRegion sel] :=
      cycleRegions_not_found sel regions hnone
    have s2 : cycleRegions sel (regions ++ [freshRegion sel]) =
        regions ++ [{ freshRegion sel with type := CensorType.blackbar }] := by
      rw [cycleRegions_found_append sel regions _ hnone key1]; rfl
    have s3 : cycleRegions sel (regions ++ [{ freshRegion sel with type := CensorType.blackbar }]) =
        regions ++ [{ freshRegion sel with type := CensorType.blur }] := by
      rw [cycleRegions_found_append sel regions _ hnone key2]
    have s4 : cycleRegions sel (regions ++ [{ freshRegion sel with type := CensorType.blur }]) =
        regions := by
      rw [cycleRegions_found_append sel regions _ hnone key3]; simp
    refine ⟨?_, ?_, ?_, ?_⟩
    · rw [hvalid]; exact s1
    · rw [hvalid, hvalid, s1]; exact s2
    · rw [hvalid, hvalid, hvalid, s1, s2]; exact s3
    · rw [hvalid, hvalid, hvalid, hvalid, s1, s2, s3]; exact s4
  · by_cases h1 : sel.lineIndex = -1
    · simp [cycleCensorType, h1]
    · by_cases h2 : sel.layerId = -1
      · simp [cycleCensorType, h1, h2]
      · simp [cycleCensorType, h1, h2, cycleRegions_filter_frame]

/-- C1 witness: the four-step cycle on the concrete selection
`(layerId 1, line 0, offsets 0–2)` with one unrelated region present. -/
theorem claim_C1_witness :
    cycleCensorType ⟨1, 0, 0, 2, "ab"⟩
      (cycleCensorType ⟨1, 0, 0, 2, "ab"⟩ (cycleCensorType ⟨1, 0, 0, 2, "ab"⟩
        (cycleCensorType ⟨1, 0, 0, 2, "ab"⟩ [⟨5, 7, 9, .blur, 2⟩]))) =
      [⟨5, 7, 9, .blur, 2⟩] :=
  ((claim_C1 ⟨1, 0, 0, 2, "ab"⟩ [⟨5, 7, 9, .blur, 2⟩]).2.1
    (by decide) (by decide) (by decide)).2.2.2

/-! ### C5: overlap handling of the two rendering paths -/

/-- With regions that are pairwise disjoint (in their sorted order) and
well-formed, the overlay loop and the spec's first-match-wins scan agree. -/
theorem censorFold_eq_firstMatchFold (text : String) (l : List CensoredRegion) :
    ∀ acc last, (∀ r ∈ l, last ≤ r.startOffset) →
      (∀ r ∈ l, r.startOffset < r.endOffset) →
      l.Pairwise (fun a b => a.endOffset ≤ b.startOffset) →
      censorFold text l acc last = firstMatchFold text l acc last := by
  induction l with
  | nil => intro acc last _ _ _; rfl
  | cons r rest ih =>
    intro acc last hle hv hp
    have h1 : last ≤ r.startOffset := hle r (by simp)
    have h2 : r.startOffset < r.endOffset := hv r (by simp)
    have heff : max r.startOffset last = r.startOffset := by omega
    rw [censorFold, firstMatchFold, heff, if_neg (by omega)]
    have hrest : ∀ x ∈ rest, r.endOffset ≤ x.startOffset :=
      fun x hx => (List.pairwise_cons.mp hp).1 x hx
    exact ih _ _ hrest (fun x hx => hv x (by simp [hx])) (List.pairwise_cons.mp hp).2

/-- C5 counterexample: with the overlapping regions `[0,5) Invisible` and
`[3,8) BlackBar` on `"abcdefgh"`, the overlay substitution emits the
overlapped characters `de` once per covering region instead of applying only
the first; and the export scan picks regions by store order, giving different
segmentations for the two orderings of the same region set. -/
theorem claim_C5_counterexample :
    applyCensoring "abcdefgh" 0 1 [⟨0, 0, 5, .invisible, 1⟩, ⟨0, 3, 8, .blackbar, 1⟩] ≠
      applyCensoringFirstMatch "abcdefgh" 0 1
        [⟨0, 0, 5, .invisible, 1⟩, ⟨0, 3, 8, .blackbar, 1⟩] ∧
    drawTextSegments [⟨0, 5, 8, .blackbar, 1⟩, ⟨0, 0, 3, .invisible, 1⟩] 1 0 0 "abcdefgh" =
      [("abcde", none), ("fgh", some .blackbar)] ∧
    drawTextSegments [⟨0, 0, 3, .invisible, 1⟩, ⟨0, 5, 8, .blackbar, 1⟩] 1 0 0 "abcdefgh" =
      [("abc", some .invisible), ("de", none), ("fgh", some .blackbar)] := by
  refine ⟨by decide, by decide, by decide⟩

/-- C5 (amended): the overlay substitution processes the line's regions
sorted by `startOffset`, but under overlap it re-emits the overlapped
characters once per covering region rather than applying only the first;
the export scan selects, at each position, the first region in store
(insertion) order whose start or end falls in the remaining window, not the
sorted-by-`startOffset` first match.  When the line's regions are pairwise
disjoint, the overlay substitution does coincide with the spec's
first-match-wins scan. -/
theorem claim_C5 :
    (∀ (text : String) (lineIndex layerId : Int) (allRegions : List CensoredRegion),
      (∀ r ∈ regionsForLine allRegions layerId lineIndex, r.startOffset < r.endOffset) →
      (regionsForLine allRegions layerId lineIndex).Pairwise
        (fun a b => a.endOffset ≤ b.startOffset) →
      applyCensoring text lineIndex layerId allRegions =
        applyCensoringFirstMatch text lineIndex layerId allRegions) ∧
    applyCensoring "abcdefgh" 0 1 [⟨0, 0, 5, .invisible, 1⟩, ⟨0, 3, 8, .blackbar, 1⟩] =
      "<span class=\"censored-invisible\">abcde</span><span class=\"censored-blackbar\">defgh</span>" ∧
    drawTextSegments [⟨0, 5, 8, .blackbar, 1⟩, ⟨0, 0, 3, .invisible, 1⟩] 1 0 0 "abcdefgh" ≠
      drawTextSegments [⟨0, 0, 3, .invisible, 1⟩, ⟨0, 5, 8, .blackbar, 1⟩] 1 0 0 "abcdefgh" := by
  refine ⟨?_, by decide, by decide⟩
  intro text lineIndex layerId allRegions hv hp
  unfold applyCensoring applyCensoringFirstMatch
  by_cases he : (regionsForLine allRegions layerId lineIndex).isEmpty
  · simp [he]
  · simp only [he, if_neg, Bool.false_eq_true, if_false]
    exact censorFold_eq_firstMatchFold text _ "" 0 (fun r _ => Nat.zero_le _) hv hp

/-- C5 witness: the disjoint-region agreement instantiated on a concrete
two-region line. -/
theorem claim_C5_witness :
    applyCensoring "abcdefgh" 0 1 [⟨0, 0, 2, .blur, 1⟩, ⟨0, 4, 6, .invisible, 1⟩] =
      applyCensoringFirstMatch "abcdefgh" 0 1
        [⟨0, 0, 2, .blur, 1⟩, ⟨0, 4, 6, .invisible, 1⟩] :=
  claim_C5.1 "abcdefgh" 0 1 [⟨0, 0, 2, .blur, 1⟩, ⟨0, 4, 6, .invisible, 1⟩]
    (by decide) (by decide)

/-! ### C2: line splitting and id assignment -/

theorem fallbackColor_id (i : Nat) (p : String) : (fallbackColor i p).id = i := by
  unfold fallbackColor
  cases colorMappings.find? (fun m => m.pattern p) <;> rfl

theorem classifyRest_id (i : Nat) (p : String) : (classifyRest i p).id = i := by
  unfold classifyRest
  repeat' split
  all_goals try dsimp only
  all_goals try split
  all_goals first | rfl | exact fallbackColor_id i p

theorem classifyLine_id (strip : Bool) (c : String) (i : Nat) (line : String) :
    (classifyLine strip c i line).id = i := by
  unfold classifyLine
  repeat' split
  all_goals first | rfl | apply classifyRest_id

theorem enumFrom_map_fst (n : Nat) (l : List α) :
    (l.enumFrom n).map (fun p => p.1) = List.range' n l.length := by
  induction l generalizing n with
  | nil => rfl
  | cons a t ih => simp [List.enumFrom, List.range', ih]

/-- C2: `parseChatlog` splits on newline, discards lines that are empty after
trimming, and returns exactly one styled line per surviving raw line, in
input order, with sequential ids 0, 1, 2, … over the surviving lines (the
i-th output is the classification of the i-th surviving line); empty input
yields the empty sequence. -/
theorem claim_C2 (strip : Bool) (characterName : String) (text : String) :
    (parseChatlogPure strip characterName text).length = (survivingLines text).length ∧
    (parseChatlogPure strip characterName text).map (fun pl => pl.id) =
      List.range (survivingLines text).length ∧
    (∀ i : Nat, (parseChatlogPure strip characterName text)[i]? =
      ((survivingLines text)[i]?).map (fun line => classifyLine strip characterName i line)) ∧
    parseChatlogPure strip characterName "" = [] := by
  by_cases ht : text = ""
  · subst ht
    refine ⟨rfl, rfl, ?_, rfl⟩
    intro i
    have hs : survivingLines "" = [] := rfl
    simp [parseChatlogPure, hs]
  · refine ⟨?_, ?_, ?_, rfl⟩
    · simp [parseChatlogPure, ht]
    · rw [parseChatlogPure, if_neg ht, List.map_map]
      have : ((survivingLines text).enum.map
          (fun p => (classifyLine strip characterName p.1 p.2).id)) =
          ((survivingLines text).enum.map (fun p => p.1)) := by
        apply List.map_congr_left
        intro a _
        exact classifyLine_id strip characterName a.1 a.2
      rw [Function.comp_def]
      rw [this, List.enum, enumFrom_map_fst, List.range_eq_range']
    · intro i
      rw [parseChatlogPure, if_neg ht]
      rw [List.getElem?_map, List.getElem?_enum]
      cases (survivingLines text)[i]? <;> rfl

/-! ### C4: full-line rules versus the player-aware tier -/

/-- When the full-line (non-player-aware) lookup finds a rule, `classifyRest`
returns that rule's color. -/
theorem classifyRest_full (index : Nat) (p c : String)
    (h : (colorMappings.find? (fun m => m.fullLine && !m.checkPlayerName &&
        m.pattern p)).map (fun m => m.color) = some c) :
    (classifyRest index p).color = c := by
  rcases Option.map_eq_some'.mp h with ⟨m, hm, hc⟩
  unfold classifyRest
  rw [hm]
  exact hc

/-- C4 counterexample: the radio rule (first table entry) is flagged
full-line and matches the line, yet the player-aware cellphone rule — a
later entry in table order — determines the classified color once a
character name is configured. -/
theorem claim_C4_counterexample :
    (colorMappings.head?.map (fun m => m.fullLine)) = some true ∧
    (colorMappings.head?.map (fun m => m.pattern "** [S: 1 | CH: 2] (cellphone) hi")) =
      some true ∧
    (colorMappings.head?.map (fun m => m.color)) = some "rgb(214, 207, 140)" ∧
    (classifyLine false "Bob" 0 "** [S: 1 | CH: 2] (cellphone) hi").color =
      "rgb(251, 247, 36)" := by
  refine ⟨rfl, by decide, rfl, by decide⟩

/-- C4 (amended): a line matched by a "full line" rule that is not
player-aware keeps that rule's color against every later rule, PROVIDED the
player-aware tier does not fire (no player-aware rule matches the processed
line, or no character name is configured): the player-aware tier is checked
first regardless of table order. -/
theorem claim_C4 (strip : Bool) (characterName line c : String) (index : Nat)
    (hcell : (colorMappings.find? (fun m => m.checkPlayerName &&
        m.pattern (processedLineOf strip line))).isSome → characterName = "")
    (hfull : (colorMappings.find? (fun m => m.fullLine && !m.checkPlayerName &&
        m.pattern (processedLineOf strip line))).map (fun m => m.color) = some c) :
    (classifyLine strip characterName index line).color = c := by
  unfold classifyLine
  cases h1 : colorMappings.find? (fun m => m.checkPlayerName &&
      m.pattern (processedLineOf strip line)) with
  | none => exact classifyRest_full index _ c hfull
  | some m =>
    have hname : characterName = "" := hcell (by rw [h1]; rfl)
    dsimp only
    rw [if_pos hname]
    exact classifyRest_full index _ c hfull

/-- C4 witness: a radio line with no character name configured is colored by
the full-line radio rule. -/
theorem claim_C4_witness :
    (classifyLine false "" 0 "** [S: 1 | CH: 2] hi").color = "rgb(214, 207, 140)" :=
  claim_C4 false "" "** [S: 1 | CH: 2] hi" "rgb(214, 207, 140)" 0 (by decide) (by decide)

/-! ### C6: the greedy word wrap of `saveImage` -/

/-- `rawText.split(' ')` on character lists. -/
def splitSp (l : List Char) : List (List Char) := splitChar ' ' l

/-- Word-wrap runs re-joined with a single space between consecutive runs. -/
def joinSp : List (List Char) → List Char
  | [] => []
  | [w] => w
  | w :: rest => w ++ ' ' :: joinSp rest

/-- The greedy wrap loop of `saveImage`: `currentLineText` accumulates words;
when adding the next word would exceed the budget AND the accumulator is
truthy (JS: nonempty), the accumulator is flushed as a run and restarted with
that word; the final accumulator is flushed after the loop only when truthy.
`width` abstracts `ctx.measureText(·).width`. -/
def wrapGo (width : List Char → Nat) (budget : Nat) :
    List (List Char) → List Char → List (List Char)
  | [], currentLineText => if currentLineText = [] then [] else [currentLineText]
  | word :: rest, currentLineText =>
    let testLine := if currentLineText = [] then word else currentLineText ++ ' ' :: word
    if width testLine > budget ∧ currentLineText ≠ [] then
      currentLineText :: wrapGo width budget rest word
    else wrapGo width budget rest testLine

/-- The whole word wrap of one logical line (the `words` loop is entered with
an empty accumulator). -/
def wrapLine (width : List Char → Nat) (budget : Nat) (rawText : List Char) :
    List (List Char) :=
  wrapGo width budget (splitSp rawText) []

theorem splitChar_ne_nil (sep : Char) (l : List Char) : splitChar sep l ≠ [] := by
  cases l with
  | nil => simp [splitChar]
  | cons c rest =>
    by_cases hc : c = sep
    · simp [splitChar, hc]
    · simp only [splitChar, if_neg hc]
      cases splitChar sep rest <;> simp

theorem joinSp_cons_cons (c : Char) (w : List Char) (ws : List (List Char)) :
    joinSp ((c :: w) :: ws) = c :: joinSp (w :: ws) := by
  cases ws <;> simp [joinSp]

/-- Splitting on spaces and re-joining with single spaces is the identity. -/
theorem joinSp_splitSp (l : List Char) : joinSp (splitSp l) = l := by
  induction l with
  | nil => rfl
  | cons c rest ih =>
    by_cases hc : c = ' '
    · rcases hsp : splitSp rest with _ | ⟨w, ws⟩
      · exact absurd hsp (splitChar_ne_nil ' ' rest)
      · subst hc
        have hred : splitSp (' ' :: rest) = [] :: splitSp rest := by
          simp [splitSp, splitChar]
        rw [hred, hsp]
        have hj : joinSp ([] :: w :: ws) = ' ' :: joinSp (w :: ws) := rfl
        rw [hj, ← hsp, ih]
    · rcases hsp : splitSp rest with _ | ⟨w, ws⟩
      · exact absurd hsp (splitChar_ne_nil ' ' rest)
      · simp only [splitSp, splitChar, if_neg hc]
        rw [show splitChar ' ' rest = w :: ws from hsp, joinSp_cons_cons, ← hsp, ih]

theorem wrapGo_ne_nil (width : List Char → Nat) (budget : Nat)
    (words : List (List Char)) :
    ∀ cur, cur ≠ [] → wrapGo width budget words cur ≠ [] := by
  induction words with
  | nil => intro cur hc; simp [wrapGo, hc]
  | cons w rest ih =>
    intro cur hc
    simp only [wrapGo, if_neg (show ¬cur = [] from hc)]
    split
    · simp
    · exact ih _ (by simp [hc])

/-- Runs emitted from a nonempty accumulator and all-nonempty words re-join
to the accumulator followed by the words. -/
theorem wrapGo_join (width : List Char → Nat) (budget : Nat)
    (words : List (List Char)) :
    ∀ cur, cur ≠ [] → (∀ w ∈ words, w ≠ []) →
      joinSp (wrapGo width budget words cur) = joinSp (cur :: words) := by
  induction words with
  | nil => intro cur hc _; simp [wrapGo, hc, joinSp]
  | cons w rest ih =>
    intro cur hc hw
    have hw0 : w ≠ [] := hw w (by simp)
    have hwrest : ∀ x ∈ rest, x ≠ [] := fun x hx => hw x (by simp [hx])
    simp only [wrapGo, if_neg (show ¬cur = [] from hc)]
    split
    · have h1 : joinSp (cur :: wrapGo width budget rest w) =
          cur ++ ' ' :: joinSp (wrapGo width budget rest w) := by
        rcases hgo : wrapGo width budget rest w with _ | ⟨a, b⟩
        · exact absurd hgo (wrapGo_ne_nil width budget rest w hw0)
        · rfl
      rw [h1, ih w hw0 hwrest]
      rcases rest with _ | ⟨x, xs⟩
      · rfl
      · rfl
    · rw [ih (cur ++ ' ' :: w) (by simp) hwrest]
      rcases rest with _ | ⟨x, xs⟩
      · rfl
      · simp [joinSp]

/-- C6 counterexample: with the measure `length`, budget 1 and the line
`" a"` (leading space, so `split(' ')` yields an empty first word), the line
exceeds the budget but the wrap drops the leading space: the runs re-join to
`"a"`, not `" a"`. -/
theorem claim_C6_counterexample :
    (fun l : List Char => l.length) [' ', 'a'] > 1 ∧
    wrapLine (fun l => l.length) 1 [' ', 'a'] = [['a']] ∧
    joinSp (wrapLine (fun l => l.length) 1 [' ', 'a']) ≠ [' ', 'a'] := by
  refine ⟨by decide, by decide, by decide⟩

/-- C6 (amended): for every width measure and budget, when every fragment of
`rawText.split(' ')` is nonempty (no leading, trailing, or consecutive
spaces), the greedy wrap's emitted runs, re-joined with a single space
between consecutive runs, reconstruct the original line exactly.  (With
empty fragments the JS truthiness checks can drop spaces.) -/
theorem claim_C6 (width : List Char → Nat) (budget : Nat) (rawText : List Char)
    (_hbudget : width rawText > budget)
    (hwords : ∀ w ∈ splitSp rawText, w ≠ []) :
    joinSp (wrapLine width budget rawText) = rawText := by
  rcases hsp : splitSp rawText with _ | ⟨w0, ws⟩
  · exact absurd hsp (splitChar_ne_nil ' ' rawText)
  · have hw0 : w0 ≠ [] := hwords w0 (by rw [hsp]; simp)
    have hws : ∀ w ∈ ws, w ≠ [] := fun w hw => hwords w (by rw [hsp]; simp [hw])
    unfold wrapLine
    rw [hsp]
    have hstep : wrapGo width budget (w0 :: ws) [] = wrapGo width budget ws w0 := by
      simp [wrapGo]
    rw [hstep, wrapGo_join width budget ws w0 hw0 hws, ← hsp, joinSp_splitSp]

/-- C6 witness: reconstruction on the line `"ab cd ef"` with measure `length`
and budget 3 (the line measures over budget, all split fragments nonempty). -/
theorem claim_C6_witness :
    joinSp (wrapLine (fun l => l.length) 3 "ab cd ef".data) = "ab cd ef".data :=
  claim_C6 (fun l => l.length) 3 "ab cd ef".data (by decide) (by decide)

/-! ### C9: the screenshot filename builder -/

/-- `value.toString().padStart(2, '0')`. -/
def padTwo (n : Nat) : String :=
  let s := toString n
  if s.length < 2 then "0" ++ s else s

/-- The character class kept by `replace(/[^a-zA-Z0-9\s_-]/g, '')`. -/
def themeKeep (c : Char) : Bool :=
  c.isAlpha || c.isDigit || jsWs c || c = '_' || c = '-'

def stripThemeChars (l : List Char) : List Char := l.filter themeKeep

/-- `replace(/\s+/g, '-')`: every maximal whitespace run becomes one hyphen.
The flag records whether the previous character belonged to a run already
replaced. -/
def collapseWsGo : Bool → List Char → List Char
  | _, [] => []
  | prevWs, c :: rest =>
    if jsWs c then
      if prevWs then collapseWsGo true rest else '-' :: collapseWsGo true rest
    else c :: collapseWsGo false rest

def collapseWs (l : List Char) : List Char := collapseWsGo false l

/-- The theme sanitisation of `buildScreenshotFilename`:
`theme.trim()` then `.replace(/[^a-zA-Z0-9\s_-]/g, '').trim().replace(/\s+/g, '-')`. -/
def sanitizeTheme (theme : String) : String :=
  (collapseWs (jsTrim (stripThemeChars (jsTrim theme.data)))).asString

/-- `buildScreenshotFilename` with the impure `new Date()` abstracted into
its used components (`month` stands for `getMonth() + 1`). -/
def buildScreenshotFilename (day month year hours minutes : Nat) (theme : String) :
    String :=
  let datePart := padTwo day ++ padTwo month ++ toString year
  let timePart := padTwo hours ++ padTwo minutes
  let safeTheme := sanitizeTheme theme
  let finalTheme := if safeTheme = "" then "screenshot" else safeTheme
  datePart ++ " - " ++ timePart ++ " - " ++ finalTheme ++ ".png"

/-- Modelled from the spec/claim words: "characters outside `[A-Za-z0-9 _-]`
removed and whitespace runs collapsed to hyphens" — the literal class keeps
only the space character among whitespace, and nothing is trimmed. -/
def sanitizeThemeClaim (theme : String) : String :=
  (collapseWs (theme.data.filter
    (fun c => c.isAlpha || c.isDigit || c = ' ' || c = '_' || c = '-'))).asString

/-- Whitespace-separated tokens of a character list (empty tokens dropped);
`acc` holds the current token reversed. -/
def wsTokensGo : List Char → List Char → List (List Char)
  | acc, [] => if acc.isEmpty then [] else [acc.reverse]
  | acc, c :: rest =>
    if jsWs c then
      if acc.isEmpty then wsTokensGo [] rest
      else acc.reverse :: wsTokensGo [] rest
    else wsTokensGo (c :: acc) rest

/-- Tokens joined with single hyphens. -/
def joinDash : List (List Char) → List Char
  | [] => []
  | [w] => w
  | w :: rest => w ++ '-' :: joinDash rest

/-- C9 counterexample: on the theme `" a"` the sanitisation described by the
claim (no trimming; only the literal space in the kept class) yields `"-a"`,
but the code trims and yields `"a"` — the produced filenames differ. -/
theorem claim_C9_counterexample :
    sanitizeThemeClaim " a" = "-a" ∧
    sanitizeTheme " a" = "a" ∧
    buildScreenshotFilename 5 3 2024 14 7 " a" = "05032024 - 1407 - a.png" ∧
    buildScreenshotFilename 5 3 2024 14 7 " a" ≠ "05032024 - 1407 - -a.png" := by
  refine ⟨by decide, by decide, by decide, by decide⟩

/-! Helper lemmas relating trimming, whitespace collapsing and tokenising. -/

theorem length_dropWhile_le_mag (p : Char → Bool) (l : List Char) :
    (l.dropWhile p).length ≤ l.length := by
  induction l with
  | nil => simp
  | cons c rest ih =>
    rw [List.dropWhile_cons]
    split
    · simp only [List.length_cons]; omega
    · simp

theorem dropWhile_head_false (p : Char → Bool) (l : List Char) (a : Char) (l2 : List Char)
    (h : l.dropWhile p = a :: l2) : p a = false := by
  induction l with
  | nil => simp [List.dropWhile] at h
  | cons c rest ih =>
    cases hc : p c with
    | true => rw [List.dropWhile_cons, if_pos hc] at h; exact ih h
    | false =>
      rw [List.dropWhile_cons, if_neg (by simp [hc])] at h
      injection h with h1 _
      rw [← h1]; exact hc

theorem trimEndWs_all_nonws (t : List Char) (h : ∀ c ∈ t, jsWs c = false) :
    trimEndWs t = t := by
  unfold trimEndWs
  rcases ht : t.reverse with _ | ⟨c, rest⟩
  · rw [List.dropWhile_nil, ← ht, List.reverse_reverse]
  · have hc : jsWs c = false := h c (by rw [← List.mem_reverse, ht]; simp)
    rw [List.dropWhile_cons, if_neg (by simp [hc]), ← ht, List.reverse_reverse]

theorem trimEndWs_eq_nil_iff (r : List Char) :
    trimEndWs r = [] ↔ ∀ c ∈ r, jsWs c = true := by
  unfold trimEndWs
  rw [List.reverse_eq_nil_iff, List.dropWhile_eq_nil_iff]
  constructor
  · intro h c hc; exact h c (List.mem_reverse.mpr hc)
  · intro h c hc; exact h c (List.mem_reverse.mp hc)

theorem trimEndWs_append_ws (t r : List Char) (h : ∀ c ∈ r, jsWs c = true) :
    trimEndWs (t ++ r) = trimEndWs t := by
  unfold trimEndWs
  rw [List.reverse_append,
    List.dropWhile_append_of_pos (fun a ha => h a (List.mem_reverse.mp ha))]

theorem trimEndWs_append_of_ne (t r : List Char) (h : trimEndWs r ≠ []) :
    trimEndWs (t ++ r) = t ++ trimEndWs r := by
  have hne : ¬(r.reverse.dropWhile jsWs).isEmpty = true := by
    intro hcontra
    apply h
    unfold trimEndWs
    rw [List.isEmpty_iff.mp hcontra]
    rfl
  unfold trimEndWs
  rw [List.reverse_append, List.dropWhile_append, if_neg hne, List.reverse_append,
    List.reverse_reverse]

theorem trimEndWs_cons_nonws (c : Char) (w : List Char) (hc : jsWs c = false) :
    trimEndWs (c :: w) = c :: trimEndWs w := by
  have hsplit : (c :: w) = [c] ++ w := rfl
  rw [hsplit]
  by_cases hw : trimEndWs w = []
  · rw [trimEndWs_append_ws [c] w ((trimEndWs_eq_nil_iff w).mp hw), hw,
      trimEndWs_all_nonws [c] (by intro x hx; simp at hx; subst hx; exact hc)]
  · rw [trimEndWs_append_of_ne [c] w hw]; rfl

theorem trimEndWs_decomp (m : List Char) :
    m = trimEndWs m ++ (m.reverse.takeWhile jsWs).reverse ∧
    ∀ c ∈ (m.reverse.takeWhile jsWs).reverse, jsWs c = true := by
  constructor
  · conv_lhs => rw [← List.reverse_reverse m,
      ← List.takeWhile_append_dropWhile jsWs m.reverse]
    rw [List.reverse_append]
    rfl
  · intro c hc
    exact List.mem_takeWhile_imp (List.mem_reverse.mp hc)

theorem collapseWsGo_nonws (b : Bool) (c : Char) (x : List Char) (hc : jsWs c = false) :
    collapseWsGo b (c :: x) = c :: collapseWsGo false x := by
  simp [collapseWsGo, hc]

theorem collapseWsGo_true_ws (u y : List Char) (h : ∀ c ∈ u, jsWs c = true) :
    collapseWsGo true (u ++ y) = collapseWsGo true y := by
  induction u with
  | nil => rfl
  | cons c u2 ih =>
    rw [List.cons_append,
      show collapseWsGo true (c :: (u2 ++ y)) = collapseWsGo true (u2 ++ y) by
        simp [collapseWsGo, h c (by simp)]]
    exact ih (fun x hx => h x (by simp [hx]))

theorem collapseWsGo_nonws_append (t x : List Char) (h : ∀ c ∈ t, jsWs c = false) :
    collapseWsGo false (t ++ x) = t ++ collapseWsGo false x := by
  induction t with
  | nil => rfl
  | cons c t2 ih =>
    rw [List.cons_append, collapseWsGo_nonws false c _ (h c (by simp)),
      ih (fun y hy => h y (by simp [hy])), List.cons_append]

theorem wsTokensGo_nonws_append (t : List Char) (h : ∀ c ∈ t, jsWs c = false) :
    ∀ acc x, wsTokensGo acc (t ++ x) = wsTokensGo (t.reverse ++ acc) x := by
  induction t with
  | nil => intro acc x; rfl
  | cons c t2 ih =>
    intro acc x
    rw [List.cons_append,
      show wsTokensGo acc (c :: (t2 ++ x)) = wsTokensGo (c :: acc) (t2 ++ x) by
        simp [wsTokensGo, h c (by simp)],
      ih (fun y hy => h y (by simp [hy])) (c :: acc) x]
    simp

theorem wsTokensGo_all_ws (r : List Char) (h : ∀ c ∈ r, jsWs c = true) :
    ∀ acc, wsTokensGo acc r = if acc.isEmpty then [] else [acc.reverse] := by
  induction r with
  | nil => intro acc; rfl
  | cons c r2 ih =>
    intro acc
    have hc := h c (by simp)
    rw [show wsTokensGo acc (c :: r2) =
        if acc.isEmpty then wsTokensGo [] r2 else acc.reverse :: wsTokensGo [] r2 by
      simp [wsTokensGo, hc]]
    rw [ih (fun y hy => h y (by simp [hy])) []]
    by_cases hacc : acc.isEmpty <;> simp [hacc]

theorem wsTokensGo_ws_prefix (u x : List Char) (h : ∀ c ∈ u, jsWs c = true) :
    wsTokensGo [] (u ++ x) = wsTokensGo [] x := by
  induction u with
  | nil => rfl
  | cons c u2 ih =>
    rw [List.cons_append,
      show wsTokensGo [] (c :: (u2 ++ x)) = wsTokensGo [] (u2 ++ x) by
        simp [wsTokensGo, h c (by simp)]]
    exact ih (fun y hy => h y (by simp [hy]))

theorem wsTokensGo_ne_nil (x : List Char) : ∀ acc, acc ≠ [] → wsTokensGo acc x ≠ [] := by
  induction x with
  | nil =>
    intro acc hacc
    simp [wsTokensGo, show acc.isEmpty = false by simpa [List.isEmpty_iff] using hacc]
  | cons c x2 ih =>
    intro acc hacc
    by_cases hc : jsWs c = true
    · simp [wsTokensGo, hc, show acc.isEmpty = false by simpa [List.isEmpty_iff] using hacc]
    · rw [show wsTokensGo acc (c :: x2) = wsTokensGo (c :: acc) x2 by
        simp [wsTokensGo, show jsWs c = false by simpa using hc]]
      exact ih (c :: acc) (by simp)

theorem wsTokensGo_ws_suffix (y s : List Char) (h : ∀ c ∈ s, jsWs c = true) :
    ∀ acc, wsTokensGo acc (y ++ s) = wsTokensGo acc y := by
  induction y with
  | nil =>
    intro acc
    rw [List.nil_append, wsTokensGo_all_ws s h acc]
    rfl
  | cons c y2 ih =>
    intro acc
    by_cases hc : jsWs c = true <;> by_cases hacc : acc.isEmpty <;>
      simp [wsTokensGo, hc, hacc, ih]

theorem joinDash_cons_of_ne (w : List Char) (l : List (List Char)) (h : l ≠ []) :
    joinDash (w :: l) = w ++ '-' :: joinDash l := by
  cases l
  · contradiction
  · rfl

/-- Collapsing whitespace runs after trimming coincides with joining the
whitespace-separated tokens with hyphens. -/
theorem collapse_trim_tokens : ∀ (n : Nat) (l : List Char), l.length ≤ n →
    collapseWsGo false (trimEndWs (l.dropWhile jsWs)) = joinDash (wsTokensGo [] l) := by
  intro n
  induction n with
  | zero =>
    intro l hl
    have h0 : l = [] := List.eq_nil_of_length_eq_zero (Nat.le_zero.mp hl)
    subst h0; rfl
  | succ n ih =>
    intro l hl
    rcases l with _ | ⟨c, rest⟩
    · rfl
    · have hlen : rest.length ≤ n := by simp only [List.length_cons] at hl; omega
      by_cases hc : jsWs c = true
      · rw [show (c :: rest).dropWhile jsWs = rest.dropWhile jsWs by
            simp [List.dropWhile_cons, hc],
          show wsTokensGo [] (c :: rest) = wsTokensGo [] rest by simp [wsTokensGo, hc]]
        exact ih rest hlen
      · have hcf : jsWs c = false := by simpa using hc
        set t := (c :: rest).takeWhile (fun x => !jsWs x) with htdef
        set r := (c :: rest).dropWhile (fun x => !jsWs x) with hrdef
        have hdecomp : t ++ r = c :: rest :=
          List.takeWhile_append_dropWhile (fun x => !jsWs x) (c :: rest)
        have htall : ∀ x ∈ t, jsWs x = false := by
          intro x hx
          have := List.mem_takeWhile_imp hx
          simpa using this
        have htne : t ≠ [] := by
          rw [htdef, List.takeWhile_cons, if_pos (by simp [hcf])]
          simp
        have hrlen : r.length ≤ rest.length := by
          rw [hrdef, List.dropWhile_cons, if_pos (by simp [hcf])]
          exact length_dropWhile_le_mag _ rest
        have hLdrop : (c :: rest).dropWhile jsWs = c :: rest := by
          simp [List.dropWhile_cons, hcf]
        rw [hLdrop, ← hdecomp]
        by_cases hr : trimEndWs r = []
        · have hrall : ∀ x ∈ r, jsWs x = true := (trimEndWs_eq_nil_iff r).mp hr
          rw [trimEndWs_append_ws t r hrall, trimEndWs_all_nonws t htall,
            show collapseWsGo false t = t by
              have h5 := collapseWsGo_nonws_append t [] htall
              simpa [collapseWsGo] using h5,
            wsTokensGo_nonws_append t htall [] r, List.append_nil,
            wsTokensGo_all_ws r hrall t.reverse,
            if_neg (by simp [List.isEmpty_iff, htne]), List.reverse_reverse]
          rfl
        · have hrne : r ≠ [] := by intro h0; rw [h0] at hr; exact hr rfl
          obtain ⟨d, r2, hdr⟩ := List.exists_cons_of_ne_nil hrne
          have hdws : jsWs d = true := by
            have h6 : (fun x => !jsWs x) d = false :=
              dropWhile_head_false (fun x => !jsWs x) (c :: rest) d r2 (by rw [← hrdef, hdr])
            simpa using h6
          set u := r.takeWhile jsWs with hudef
          set v := r.dropWhile jsWs with hvdef
          have huv : u ++ v = r := List.takeWhile_append_dropWhile jsWs r
          have huall : ∀ x ∈ u, jsWs x = true := fun x hx => List.mem_takeWhile_imp hx
          have hvlen : v.length ≤ r.length := by
            rw [hvdef]; exact length_dropWhile_le_mag _ r
          have hune : u ≠ [] := by
            rw [hudef, hdr, List.takeWhile_cons, if_pos hdws]
            simp
          have hvne : v ≠ [] := by
            intro h0
            apply hr
            rw [trimEndWs_eq_nil_iff]
            intro x hx
            exact (List.dropWhile_eq_nil_iff.mp (hvdef ▸ h0)) x hx
          obtain ⟨e, v2, hev⟩ := List.exists_cons_of_ne_nil hvne
          have hews : jsWs e = false :=
            dropWhile_head_false jsWs r e v2 (by rw [← hvdef, hev])
          have htv : trimEndWs v = e :: trimEndWs v2 := by
            rw [hev]; exact trimEndWs_cons_nonws e v2 hews
          have htvne : trimEndWs v ≠ [] := by rw [htv]; simp
          obtain ⟨f, u2, hfu⟩ := List.exists_cons_of_ne_nil hune
          have hfws : jsWs f = true := huall f (by rw [hfu]; simp)
          have hu2all : ∀ x ∈ u2, jsWs x = true := fun x hx => huall x (by rw [hfu]; simp [hx])
          have hvdrop : v.dropWhile jsWs = v := by
            rw [hev]; simp [List.dropWhile_cons, hews]
          have hIH := ih v (by omega)
          rw [hvdrop] at hIH
          have hgne : wsTokensGo [] v ≠ [] := by
            rw [hev, show wsTokensGo [] (e :: v2) = wsTokensGo [e] v2 by
              simp [wsTokensGo, hews]]
            exact wsTokensGo_ne_nil v2 [e] (by simp)
          -- left side
          rw [trimEndWs_append_of_ne t r hr,
            show trimEndWs r = u ++ trimEndWs v by
              rw [← huv]; exact trimEndWs_append_of_ne u v htvne,
            collapseWsGo_nonws_append t _ htall, hfu, List.cons_append,
            show collapseWsGo false (f :: (u2 ++ trimEndWs v)) =
                '-' :: collapseWsGo true (u2 ++ trimEndWs v) by
              simp [collapseWsGo, hfws],
            collapseWsGo_true_ws u2 _ hu2all, htv,
            collapseWsGo_nonws true e _ hews,
            show e :: collapseWsGo false (trimEndWs v2) = collapseWsGo false (trimEndWs v) by
              rw [htv, collapseWsGo_nonws false e _ hews],
            hIH]
          -- right side
          rw [wsTokensGo_nonws_append t htall [] r, List.append_nil,
            show r = f :: (u2 ++ v) by rw [← huv, hfu]; rfl,
            show wsTokensGo t.reverse (f :: (u2 ++ v)) =
                t.reverse.reverse :: wsTokensGo [] (u2 ++ v) by
              simp [wsTokensGo, hfws, List.isEmpty_iff, htne],
            List.reverse_reverse,
            wsTokensGo_ws_prefix u2 v hu2all,
            joinDash_cons_of_ne t _ hgne]

/-- The sanitiser of `buildScreenshotFilename` equals: strip the disallowed
characters, split the result on whitespace (dropping empty tokens), join the
tokens with single hyphens.  In particular the code's inner trims are
exactly "whitespace at the ends never contributes tokens". -/
theorem sanitizeTheme_eq_tokens (theme : String) :
    sanitizeTheme theme =
      (joinDash (wsTokensGo [] (stripThemeChars theme.data))).asString := by
  have hmain : ∀ (y : List Char), collapseWs (jsTrim y) = joinDash (wsTokensGo [] y) := by
    intro y
    unfold collapseWs jsTrim trimStartWs
    exact collapse_trim_tokens y.length y (le_refl _)
  unfold sanitizeTheme
  rw [hmain (stripThemeChars (jsTrim theme.data))]
  congr 2
  have hpre : ∀ x ∈ theme.data.takeWhile jsWs, jsWs x = true :=
    fun x hx => List.mem_takeWhile_imp hx
  have hkeepws : ∀ (s : List Char), (∀ x ∈ s, jsWs x = true) → stripThemeChars s = s := by
    intro s hs
    unfold stripThemeChars
    apply List.filter_eq_self.mpr
    intro a ha
    simp [themeKeep, hs a ha]
  -- the strip distributes over the leading-whitespace decomposition
  have h1 : stripThemeChars theme.data =
      theme.data.takeWhile jsWs ++ stripThemeChars (theme.data.dropWhile jsWs) := by
    conv_lhs => rw [← List.takeWhile_append_dropWhile jsWs theme.data]
    unfold stripThemeChars
    rw [List.filter_append]
    congr 1
    exact hkeepws _ hpre
  rw [h1, wsTokensGo_ws_prefix _ _ hpre]
  -- and over the trailing-whitespace decomposition
  obtain ⟨hdec, hsufws⟩ := trimEndWs_decomp (theme.data.dropWhile jsWs)
  have h2 : stripThemeChars (theme.data.dropWhile jsWs) =
      stripThemeChars (trimEndWs (theme.data.dropWhile jsWs)) ++
        ((theme.data.dropWhile jsWs).reverse.takeWhile jsWs).reverse := by
    conv_lhs => rw [hdec]
    unfold stripThemeChars
    rw [List.filter_append]
    congr 1
    exact hkeepws _ hsufws
  rw [h2, wsTokensGo_ws_suffix _ _ hsufws]
  rfl

/-- C9 (amended): the filename is `<DDMMYYYY> - <HHMM> - <theme>.png`, where
theme is the configured screenshot theme, trimmed, with characters outside
`[A-Za-z0-9\s_-]` removed, trimmed again, and the remaining whitespace runs
collapsed to single hyphens — equivalently, the whitespace-separated tokens
of the stripped theme joined by hyphens — falling back to `"screenshot"`
when the result is empty; the claim's concrete example holds. -/
theorem claim_C9 :
    (∀ theme : String, sanitizeTheme theme =
      (joinDash (wsTokensGo [] (stripThemeChars theme.data))).asString) ∧
    buildScreenshotFilename 5 3 2024 14 7 "My Screenshot!" =
      "05032024 - 1407 - My-Screenshot.png" ∧
    buildScreenshotFilename 5 3 2024 14 7 "!!! ??" = "05032024 - 1407 - screenshot.png" :=
  ⟨sanitizeTheme_eq_tokens, by decide, by decide⟩

/-! ### The layer store (`chatLayers`, `selectedChatLayerId` and friends)

The reactive module state relevant to the layer-store claims, with the
operations `createChatLayer`, `selectChatLayer`, `removeChatLayer`,
`moveChatLayer`, `resetSession` and `parseChatlog` as state transformers.
The float-valued transforms are abstracted over the integers — the store
only ever copies them.  `renderKey` and the DOM-only state are omitted. -/

structure Transform where
  x : Int
  y : Int
  scale : Int
deriving DecidableEq, Repr

structure ChatLayer where
  id : Nat
  name : String
  text : String
  parsedLines : List ParsedLine
  transform : Transform
  visible : Bool
deriving DecidableEq, Repr

structure EditorState where
  chatLayers : List ChatLayer
  selectedChatLayerId : Option Nat
  nextChatLayerId : Nat
  censoredRegions : List CensoredRegion
  selectedText : SelectedTextState
  chatTransform : Transform
  stripTimestamps : Bool
  characterName : String
deriving DecidableEq, Repr

/-- The optional fields accepted by `createChatLayer(options?)`. -/
structure CreateOptions where
  id : Option Nat := none
  name : Option String := none
  text : Option String := none
  parsedLines : Option (List ParsedLine) := none
  transform : Option Transform := none
  visible : Option Bool := none

/-- `createChatLayer(options?)`: defaults are filled (`options?.name || …` is
falsy-based, so an explicitly empty name also falls back), the layer is
pushed, and `nextChatLayerId++` happens only when no explicit id is given. -/
def createChatLayer (opts : CreateOptions) (s : EditorState) : EditorState × ChatLayer :=
  let theId := opts.id.getD s.nextChatLayerId
  let layer : ChatLayer :=
    { id := theId
      name := match opts.name with
        | some n => if n = "" then "Layer " ++ toString (s.chatLayers.length + 1) else n
        | none => "Layer " ++ toString (s.chatLayers.length + 1)
      text := opts.text.getD ""
      parsedLines := opts.parsedLines.getD []
      transform := opts.transform.getD ⟨0, 0, 1⟩
      visible := opts.visible.getD true }
  ({ s with
      chatLayers := s.chatLayers ++ [layer],
      nextChatLayerId :=
        if opts.id.isSome then s.nextChatLayerId else s.nextChatLayerId + 1 },
   layer)

def findLayer (s : EditorState) (lid : Nat) : Option ChatLayer :=
  s.chatLayers.find? (fun l => l.id == lid)

/-- The computed `activeChatLayer`: the selected layer when present,
otherwise the first layer. -/
def activeChatLayer (s : EditorState) : Option ChatLayer :=
  match s.selectedChatLayerId with
  | none => s.chatLayers.head?
  | some sid => (findLayer s sid).orElse (fun _ => s.chatLayers.head?)

def activeLayerId (s : EditorState) : Option Nat :=
  (activeChatLayer s).map (fun l => l.id)

/-- Mutating the object returned by `find`: update the first layer with the
given id. -/
def updateFirstLayer (lid : Nat) (f : ChatLayer → ChatLayer) :
    List ChatLayer → List ChatLayer
  | [] => []
  | l :: rest => if l.id == lid then f l :: rest else l :: updateFirstLayer lid f rest

/-- The setter of the computed `parsedChatLines` (writes through to the
active layer when one exists). -/
def writeActiveParsedLines (s : EditorState) (v : List ParsedLine) : EditorState :=
  match activeLayerId s with
  | some lid =>
    { s with chatLayers :=
        updateFirstLayer lid (fun l => { l with parsedLines := v }) s.chatLayers }
  | none => s

/-- The setter of the computed `chatlogText`. -/
def writeActiveText (s : EditorState) (v : String) : EditorState :=
  match activeLayerId s with
  | some lid =>
    { s with chatLayers :=
        updateFirstLayer lid (fun l => { l with text := v }) s.chatLayers }
  | none => s

/-- `ensureActiveLayer()`: the active layer, or a freshly created and
selected one when the store is empty. -/
def ensureActiveLayer (s : EditorState) : EditorState × ChatLayer :=
  match activeChatLayer s with
  | some l => (s, l)
  | none =>
    let p := createChatLayer
      { name := some ("Layer " ++ toString (s.chatLayers.length + 1)) } s
    ({ p.1 with selectedChatLayerId := some p.2.id }, p.2)

/-- The body of `parseChatlog` once the target layer is resolved: set
`visible := true` first, then parse the (unchanged) text, writing the result
to the target layer and through the `parsedChatLines` setter to the active
layer; empty text short-circuits to `[]`. -/
def parseCore (tid : Nat) (s : EditorState) : EditorState :=
  let s1 := { s with chatLayers :=
      updateFirstLayer tid (fun l => { l with visible := true }) s.chatLayers }
  let text := ((findLayer s1 tid).map (fun l => l.text)).getD ""
  if text = "" then
    let s2 := { s1 with chatLayers :=
        updateFirstLayer tid (fun l => { l with parsedLines := [] }) s1.chatLayers }
    writeActiveParsedLines s2 []
  else
    let parsed := parseChatlogPure s.stripTimestamps s.characterName text
    let s2 := { s1 with chatLayers :=
        updateFirstLayer tid (fun l => { l with parsedLines := parsed }) s1.chatLayers }
    writeActiveParsedLines s2 parsed

/-- `parseChatlog(layer?)` as a state operation; `none` is the default
argument (the active layer, with `ensureActiveLayer` creating one when the
store is empty).  An explicit id always refers to a stored layer in the
source (a reference into `chatLayers`). -/
def parseChatlogOp (explicitId : Option Nat) (s : EditorState) : EditorState :=
  match explicitId with
  | some lid =>
    match findLayer s lid with
    | some _ => parseCore lid s
    | none => s
  | none =>
    match activeChatLayer s with
    | some l => parseCore l.id s
    | none =>
      let p := ensureActiveLayer s
      parseCore p.2.id p.1

/-- `selectChatLayer(id)`: fall back to `ensureActiveLayer` when the id is
unknown; otherwise select, re-parse when the layer has text but no parsed
lines, sync the computed mirrors, copy the transform, and clear the
selection context. -/
def selectChatLayer (lid : Nat) (s : EditorState) : EditorState :=
  match findLayer s lid with
  | none =>
    let p := ensureActiveLayer s
    let s1 := { p.1 with selectedChatLayerId := some p.2.id }
    let s2 := writeActiveParsedLines s1 p.2.parsedLines
    let s3 := writeActiveText s2 p.2.text
    { s3 with chatTransform := p.2.transform }
  | some layer =>
    let s1 := { s with selectedChatLayerId := some lid }
    let s2 := if layer.text ≠ "" ∧ layer.parsedLines = [] then
        parseChatlogOp (some lid) s1
      else s1
    let s3 := writeActiveText s2 layer.text
    let s4 := writeActiveParsedLines s3
      (((findLayer s3 lid).map (fun l => l.parsedLines)).getD [])
    { s4 with
        chatTransform := layer.transform,
        selectedText := { s4.selectedText with lineIndex := -1, layerId := -1 } }

/-- `removeChatLayer(id)`: no-op while at most one layer remains; otherwise
splice the layer out, cascade-delete its censor regions, and select the
previous layer (or the first). -/
def removeChatLayer (lid : Nat) (s : EditorState) : EditorState :=
  if s.chatLayers.length ≤ 1 then s
  else
    match s.chatLayers.findIdx? (fun l => l.id == lid) with
    | none => s
    | some index =>
      let layers := s.chatLayers.eraseIdx index
      let s1 := { s with
          chatLayers := layers,
          censoredRegions :=
            s.censoredRegions.filter (fun r => !(r.layerId == (lid : Int))) }
      match (if 1 ≤ index then layers[index - 1]? else none).orElse
          (fun _ => layers[0]?) with
      | some fallback => selectChatLayer fallback.id s1
      | none => s1

inductive MoveDir where
  | up
  | down

/-- `moveChatLayer(id, direction)`: swap with the adjacent layer, no-op at
the array bounds. -/
def moveChatLayer (lid : Nat) (dir : MoveDir) (s : EditorState) : EditorState :=
  match s.chatLayers.findIdx? (fun l => l.id == lid) with
  | none => s
  | some index =>
    let swapWith : Int := match dir with
      | .up => (index : Int) - 1
      | .down => (index : Int) + 1
    if swapWith < 0 ∨ (s.chatLayers.length : Int) ≤ swapWith then s
    else
      let j := swapWith.toNat
      match s.chatLayers[index]?, s.chatLayers[j]? with
      | some a, some b => { s with chatLayers := (s.chatLayers.set index b).set j a }
      | _, _ => s

/-- `resetSession()` restricted to the modelled fields: clear the mirrors of
the old store, replace the store by one fresh default layer, select it, and
reset transforms, censor regions and the selection context. -/
def resetSession (s : EditorState) : EditorState :=
  let s1 := writeActiveText s ""
  let s2 := writeActiveParsedLines s1 []
  let s3 := { s2 with chatLayers := [] }
  let p := createChatLayer { name := some "Layer 1" } s3
  { p.1 with
      selectedChatLayerId := some p.2.id,
      chatTransform := ⟨0, 0, 1⟩,
      censoredRegions := [],
      selectedText := ⟨-1, -1, 0, 0, ""⟩ }

/-! ### Store lemmas -/

theorem updateFirstLayer_length (lid : Nat) (f : ChatLayer → ChatLayer)
    (L : List ChatLayer) : (updateFirstLayer lid f L).length = L.length := by
  induction L with
  | nil => rfl
  | cons l rest ih =>
    by_cases h : (l.id == lid) = true <;> simp [updateFirstLayer, h, ih]

theorem writeActiveParsedLines_length (s : EditorState) (v : List ParsedLine) :
    (writeActiveParsedLines s v).chatLayers.length = s.chatLayers.length := by
  unfold writeActiveParsedLines
  cases activeLayerId s <;> simp [updateFirstLayer_length]

theorem writeActiveText_length (s : EditorState) (v : String) :
    (writeActiveText s v).chatLayers.length = s.chatLayers.length := by
  unfold writeActiveText
  cases activeLayerId s <;> simp [updateFirstLayer_length]

theorem parseCore_length (tid : Nat) (s : EditorState) :
    (parseCore tid s).chatLayers.length = s.chatLayers.length := by
  unfold parseCore
  dsimp only
  split <;> simp [writeActiveParsedLines_length, updateFirstLayer_length]

theorem parseChatlogOp_some_length (lid : Nat) (s : EditorState) :
    (parseChatlogOp (some lid) s).chatLayers.length = s.chatLayers.length := by
  unfold parseChatlogOp
  dsimp only
  cases findLayer s lid with
  | none => rfl
  | some _ => exact parseCore_length lid s

theorem activeChatLayer_isSome (s : EditorState) (h : s.chatLayers ≠ []) :
    (activeChatLayer s).isSome = true := by
  obtain ⟨l0, rest, hl⟩ := List.exists_cons_of_ne_nil h
  unfold activeChatLayer
  cases hsel : s.selectedChatLayerId with
  | none => rw [hl]; rfl
  | some sid =>
    dsimp only
    cases hf : findLayer s sid with
    | some l => rfl
    | none => rw [hl]; rfl

theorem ensureActiveLayer_of_ne_nil (s : EditorState) (h : s.chatLayers ≠ []) :
    (ensureActiveLayer s).1 = s := by
  unfold ensureActiveLayer
  cases ha : activeChatLayer s with
  | some l => rfl
  | none =>
    have hs := activeChatLayer_isSome s h
    rw [ha] at hs
    simp at hs

theorem selectChatLayer_length (lid : Nat) (s : EditorState) (h : s.chatLayers ≠ []) :
    (selectChatLayer lid s).chatLayers.length = s.chatLayers.length := by
  unfold selectChatLayer
  cases hf : findLayer s lid with
  | none =>
    simp only [ensureActiveLayer_of_ne_nil s h]
    simp [writeActiveText_length, writeActiveParsedLines_length]
  | some layer =>
    dsimp only
    rw [writeActiveParsedLines_length, writeActiveText_length]
    split
    · rw [parseChatlogOp_some_length]
    · rfl

/-- C7: the layer store never reaches zero layers — `removeChatLayer` is a
no-op (the whole state unchanged) while at most one layer remains, and every
store operation (create, select, remove, reorder, reset) leaves at least one
layer present. -/
theorem claim_C7 :
    (∀ (s : EditorState) (lid : Nat), s.chatLayers.length ≤ 1 →
      removeChatLayer lid s = s) ∧
    (∀ (s : EditorState) (lid : Nat), 1 ≤ s.chatLayers.length →
      1 ≤ (removeChatLayer lid s).chatLayers.length) ∧
    (∀ (opts : CreateOptions) (s : EditorState),
      1 ≤ ((createChatLayer opts s).1).chatLayers.length) ∧
    (∀ (s : EditorState) (lid : Nat), 1 ≤ s.chatLayers.length →
      1 ≤ (selectChatLayer lid s).chatLayers.length) ∧
    (∀ (s : EditorState) (lid : Nat) (dir : MoveDir), 1 ≤ s.chatLayers.length →
      1 ≤ (moveChatLayer lid dir s).chatLayers.length) ∧
    (∀ (s : EditorState), (resetSession s).chatLayers.length = 1) := by
  refine ⟨?_, ?_, ?_, ?_, ?_, ?_⟩
  · intro s lid h
    unfold removeChatLayer
    rw [if_pos h]
  · intro s lid h
    unfold removeChatLayer
    by_cases hle : s.chatLayers.length ≤ 1
    · rw [if_pos hle]; exact h
    · rw [if_neg hle]
      cases hidx : s.chatLayers.findIdx? (fun l => l.id == lid) with
      | none => exact h
      | some index =>
        dsimp only
        have herase : 1 ≤ (s.chatLayers.eraseIdx index).length := by
          rw [List.length_eraseIdx]
          split <;> omega
        have hne : s.chatLayers.eraseIdx index ≠ [] := by
          intro h0; rw [h0] at herase; simp at herase
        cases hfb : (if 1 ≤ index then (s.chatLayers.eraseIdx index)[index - 1]? else none).orElse
            (fun _ => (s.chatLayers.eraseIdx index)[0]?) with
        | none => exact herase
        | some fallback =>
          rw [selectChatLayer_length fallback.id _ hne]
          exact herase
  · intro opts s
    unfold createChatLayer
    simp
  · intro s lid h
    rw [selectChatLayer_length lid s (by
      intro h0; rw [h0] at h; simp at h)]
    exact h
  · intro s lid dir h
    unfold moveChatLayer
    cases s.chatLayers.findIdx? (fun l => l.id == lid) with
    | none => exact h
    | some index =>
      dsimp only
      split
      · exact h
      · cases s.chatLayers[index]? <;> cases hj : s.chatLayers[(match dir with
          | MoveDir.up => (index : Int) - 1
          | MoveDir.down => (index : Int) + 1).toNat]? <;> simp [List.length_set] <;> exact h
  · intro s
    rfl

/-- One fully concrete single-layer editor state. -/
def oneLayerState : EditorState :=
  ⟨[⟨1, "Layer 1", "", [], ⟨0, 0, 1⟩, true⟩], some 1, 2, [], ⟨-1, -1, 0, 0, ""⟩,
    ⟨0, 0, 1⟩, false, ""⟩

/-- C7 witness: removing the only layer of a concrete single-layer store
leaves the state untouched. -/
theorem claim_C7_witness : removeChatLayer 1 oneLayerState = oneLayerState :=
  claim_C7.1 oneLayerState 1 (by decide)

/-! ### C10: parsing un-hides the target layer -/

theorem updateFirstLayer_find_map {α : Type} (g : ChatLayer → α) (j lid : Nat)
    (f : ChatLayer → ChatLayer)
    (hf : ∀ x, g (f x) = g x ∧ (f x).id = x.id) (L : List ChatLayer) :
    ((updateFirstLayer j f L).find? (fun l => l.id == lid)).map g =
      (L.find? (fun l => l.id == lid)).map g := by
  induction L with
  | nil => rfl
  | cons y rest ih =>
    by_cases hy : (y.id == j) = true
    · simp only [updateFirstLayer, if_pos hy]
      by_cases hyl : (y.id == lid) = true
      · have h1 : ((f y).id == lid) = true := by rw [(hf y).2]; exact hyl
        simp [List.find?_cons, h1, hyl, (hf y).1]
      · have h1 : ((f y).id == lid) = false := by
          rw [(hf y).2]; simpa using hyl
        simp [List.find?_cons, h1, show (y.id == lid) = false by simpa using hyl]
    · simp only [updateFirstLayer, if_neg hy]
      by_cases hyl : (y.id == lid) = true <;>
        simp [List.find?_cons, hyl, ih]

theorem updateFirstLayer_find_self (j : Nat) (f : ChatLayer → ChatLayer)
    (hid : ∀ x, (f x).id = x.id) (L : List ChatLayer) :
    (updateFirstLayer j f L).find? (fun l => l.id == j) =
      (L.find? (fun l => l.id == j)).map f := by
  induction L with
  | nil => rfl
  | cons y rest ih =>
    by_cases hy : (y.id == j) = true
    · simp only [updateFirstLayer, if_pos hy]
      have h1 : ((f y).id == j) = true := by rw [hid y]; exact hy
      simp [List.find?_cons, h1, hy]
    · simp only [updateFirstLayer, if_neg hy]
      simp [List.find?_cons, show (y.id == j) = false by simpa using hy, ih]

theorem writeActiveParsedLines_find_visible (s : EditorState) (v : List ParsedLine)
    (lid : Nat) :
    ((writeActiveParsedLines s v).chatLayers.find? (fun l => l.id == lid)).map
        (fun l => l.visible) =
      (s.chatLayers.find? (fun l => l.id == lid)).map (fun l => l.visible) := by
  unfold writeActiveParsedLines
  cases activeLayerId s with
  | none => rfl
  | some a =>
    dsimp only
    exact updateFirstLayer_find_map (fun l => l.visible) a lid
      (fun l => { l with parsedLines := v }) (fun x => ⟨rfl, rfl⟩) s.chatLayers

/-- C10: every call of `parseChatlog` on a stored layer sets that layer's
`visible` flag to true as a side effect — before even looking at the text —
so parsing un-hides the target layer no matter its previous visibility. -/
theorem claim_C10 (s : EditorState) (lid : Nat)
    (h : (findLayer s lid).isSome = true) :
    ((findLayer (parseChatlogOp (some lid) s) lid).map (fun l => l.visible)) =
      some true := by
  obtain ⟨l0, hl0⟩ := Option.isSome_iff_exists.mp h
  have key : ∀ (v : List ParsedLine),
      ((updateFirstLayer lid (fun l => { l with parsedLines := v })
        (updateFirstLayer lid (fun l => { l with visible := true })
          s.chatLayers)).find? (fun l => l.id == lid)).map (fun l => l.visible) =
        some true := by
    intro v
    rw [updateFirstLayer_find_map (fun l => l.visible) lid lid
        (fun l => { l with parsedLines := v }) (fun x => ⟨rfl, rfl⟩),
      updateFirstLayer_find_self lid (fun l => { l with visible := true }) (fun x => rfl),
      show s.chatLayers.find? (fun l => l.id == lid) = some l0 from hl0]
    rfl
  unfold parseChatlogOp
  dsimp only
  rw [show findLayer s lid = some l0 from hl0]
  unfold parseCore findLayer
  dsimp only
  split
  · rw [writeActiveParsedLines_find_visible]
    exact key []
  · rw [writeActiveParsedLines_find_visible]
    exact key _

/-- C10 witness: parsing a concrete hidden layer with empty text makes it
visible. -/
def hiddenLayerState : EditorState :=
  ⟨[⟨1, "Layer 1", "", [], ⟨0, 0, 1⟩, false⟩], some 1, 2, [], ⟨-1, -1, 0, 0, ""⟩,
    ⟨0, 0, 1⟩, false, ""⟩

theorem claim_C10_witness :
    ((findLayer (parseChatlogOp (some 1) hiddenLayerState) 1).map
      (fun l => l.visible)) = some true :=
  claim_C10 hiddenLayerState 1 (by decide)

/-! ### C3: re-parsing is idempotent -/

theorem writeActiveParsedLines_find_proj {α : Type} (g : ChatLayer → α)
    (hg : ∀ (x : ChatLayer) (v : List ParsedLine), g { x with parsedLines := v } = g x)
    (s : EditorState) (v : List ParsedLine) (lid : Nat) :
    ((writeActiveParsedLines s v).chatLayers.find? (fun l => l.id == lid)).map g =
      (s.chatLayers.find? (fun l => l.id == lid)).map g := by
  unfold writeActiveParsedLines
  cases activeLayerId s with
  | none => rfl
  | some a =>
    dsimp only
    exact updateFirstLayer_find_map g a lid (fun l => { l with parsedLines := v })
      (fun x => ⟨hg x v, rfl⟩) s.chatLayers

/-- `parseChatlog` never changes any layer's text. -/
theorem parseCore_find_text (tid lid : Nat) (s : EditorState) :
    ((findLayer (parseCore tid s) lid).map (fun l => l.text)) =
      (findLayer s lid).map (fun l => l.text) := by
  unfold parseCore findLayer
  dsimp only
  split <;>
  · rw [writeActiveParsedLines_find_proj (fun l => l.text) (fun x v => rfl)]
    dsimp only
    rw [updateFirstLayer_find_map (fun l => l.text) tid lid,
      updateFirstLayer_find_map (fun l => l.text) tid lid]
    all_goals first | rfl | exact fun x => ⟨rfl, rfl⟩

theorem parseCore_stripTimestamps (tid : Nat) (s : EditorState) :
    (parseCore tid s).stripTimestamps = s.stripTimestamps := by
  unfold parseCore writeActiveParsedLines
  dsimp only
  split <;> (cases activeLayerId _ <;> rfl)

theorem parseCore_characterName (tid : Nat) (s : EditorState) :
    (parseCore tid s).characterName = s.characterName := by
  unfold parseCore writeActiveParsedLines
  dsimp only
  split <;> (cases activeLayerId _ <;> rfl)

/-- Writing `parsedLines := p` anywhere keeps a layer whose parsed lines are
already `p` at `p`. -/
theorem updateFirstLayer_parsedLines_stable (a tid : Nat) (p : List ParsedLine)
    (L : List ChatLayer)
    (h : (L.find? (fun l => l.id == tid)).map (fun l => l.parsedLines) = some p) :
    ((updateFirstLayer a (fun l => { l with parsedLines := p }) L).find?
        (fun l => l.id == tid)).map (fun l => l.parsedLines) = some p := by
  induction L with
  | nil => simp at h
  | cons y rest ih =>
    by_cases hy : (y.id == a) = true
    · simp only [updateFirstLayer, if_pos hy]
      by_cases hyt : (y.id == tid) = true
      · have h1 : (({ y with parsedLines := p } : ChatLayer).id == tid) = true := hyt
        simp [List.find?_cons, h1]
      · have h1 : (({ y with parsedLines := p } : ChatLayer).id == tid) = false := by
          simpa using hyt
        simp only [List.find?_cons, h1, cond_false]
        simp only [List.find?_cons, show (y.id == tid) = false by simpa using hyt,
          cond_false] at h
        exact h
    · simp only [updateFirstLayer, if_neg hy]
      by_cases hyt : (y.id == tid) = true
      · simp only [List.find?_cons, hyt, cond_true] at h ⊢
        exact h
      · simp only [List.find?_cons, show (y.id == tid) = false by simpa using hyt,
          cond_false] at h ⊢
        exact ih h

theorem writeActiveParsedLines_parsedLines_stable (s : EditorState) (p : List ParsedLine)
    (tid : Nat)
    (h : (s.chatLayers.find? (fun l => l.id == tid)).map (fun l => l.parsedLines) = some p) :
    ((writeActiveParsedLines s p).chatLayers.find? (fun l => l.id == tid)).map
      (fun l => l.parsedLines) = some p := by
  unfold writeActiveParsedLines
  cases activeLayerId s with
  | none => exact h
  | some a => dsimp only; exact updateFirstLayer_parsedLines_stable a tid p _ h

/-- After `parseChatlog` on a layer with nonempty text, the layer's parsed
lines are the classification of its (unchanged) text. -/
theorem parseCore_parsedLines (tid : Nat) (s : EditorState) (l0 : ChatLayer)
    (hf : findLayer s tid = some l0) (ht : l0.text ≠ "") :
    ((findLayer (parseCore tid s) tid).map (fun l => l.parsedLines)) =
      some (parseChatlogPure s.stripTimestamps s.characterName l0.text) := by
  have htext1 : ((updateFirstLayer tid (fun l => { l with visible := true })
      s.chatLayers).find? (fun l => l.id == tid)).map (fun l => l.text) = some l0.text := by
    rw [updateFirstLayer_find_map (fun l => l.text) tid tid
        (fun l => { l with visible := true }) (fun x => ⟨rfl, rfl⟩),
      show s.chatLayers.find? (fun l => l.id == tid) = some l0 from hf]
    rfl
  unfold parseCore findLayer
  dsimp only
  rw [htext1, Option.getD_some, if_neg ht]
  apply writeActiveParsedLines_parsedLines_stable
  have hself := updateFirstLayer_find_self tid
    (fun l => { l with parsedLines := parseChatlogPure s.stripTimestamps s.characterName l0.text })
    (fun x => rfl)
  rw [hself]
  cases hx : (updateFirstLayer tid (fun l => { l with visible := true })
      s.chatLayers).find? (fun l => l.id == tid) with
  | none => rw [hx] at htext1; simp at htext1
  | some y => rfl

/-- C3: re-running `parseChatlog` on the identical layer yields a
structurally identical styled-line sequence (same list of `(id, text,
color)` records) — the second parse recomputes the same classification from
the unchanged text and flags. -/
theorem claim_C3 (s : EditorState) (lid : Nat) (l0 : ChatLayer)
    (hf : findLayer s lid = some l0) (ht : l0.text ≠ "") :
    (findLayer (parseChatlogOp (some lid) (parseChatlogOp (some lid) s)) lid).map
        (fun l => l.parsedLines) =
      (findLayer (parseChatlogOp (some lid) s) lid).map (fun l => l.parsedLines) := by
  have h1 : parseChatlogOp (some lid) s = parseCore lid s := by
    unfold parseChatlogOp
    dsimp only
    rw [hf]
  have htext' : (findLayer (parseCore lid s) lid).map (fun l => l.text) = some l0.text := by
    rw [parseCore_find_text, hf]
    rfl
  obtain ⟨l1, hl1⟩ : ∃ l1, findLayer (parseCore lid s) lid = some l1 := by
    cases hx : findLayer (parseCore lid s) lid with
    | none => rw [hx] at htext'; simp at htext'
    | some y => exact ⟨y, rfl⟩
  have hl1text : l1.text = l0.text := by
    rw [hl1] at htext'
    simpa using htext'
  have h2 : parseChatlogOp (some lid) (parseCore lid s) = parseCore lid (parseCore lid s) := by
    unfold parseChatlogOp
    dsimp only
    rw [hl1]
  rw [h1, h2,
    parseCore_parsedLines lid (parseCore lid s) l1 hl1 (by rw [hl1text]; exact ht),
    parseCore_parsedLines lid s l0 hf ht,
    parseCore_stripTimestamps, parseCore_characterName, hl1text]

/-- A concrete one-layer state with unparsed text. -/
def unparsedState : EditorState :=
  ⟨[⟨1, "Layer 1", "x", [], ⟨0, 0, 1⟩, true⟩], some 1, 2, [], ⟨-1, -1, 0, 0, ""⟩,
    ⟨0, 0, 1⟩, false, ""⟩

/-- C3 witness: parsing the concrete layer twice gives the same styled
lines as parsing it once. -/
theorem claim_C3_witness :
    (findLayer (parseChatlogOp (some 1) (parseChatlogOp (some 1) unparsedState)) 1).map
        (fun l => l.parsedLines) =
      (findLayer (parseChatlogOp (some 1) unparsedState) 1).map
        (fun l => l.parsedLines) :=
  claim_C3 unparsedState 1 ⟨1, "Layer 1", "x", [], ⟨0, 0, 1⟩, true⟩ (by decide) (by decide)

/-! ### C8: what `removeChatLayer` touches -/

theorem updateFirstLayer_eq_self (j : Nat) (f : ChatLayer → ChatLayer)
    (L : List ChatLayer)
    (h : ∀ x, L.find? (fun l => l.id == j) = some x → f x = x) :
    updateFirstLayer j f L = L := by
  induction L with
  | nil => rfl
  | cons y rest ih =>
    by_cases hy : (y.id == j) = true
    · have hfy := h y (by simp [List.find?_cons, hy])
      simp [updateFirstLayer, hy, hfy]
    · simp only [updateFirstLayer, if_neg hy]
      rw [ih (fun x hx => h x (by
        simp only [List.find?_cons, show (y.id == j) = false by simpa using hy, cond_false]
        exact hx))]

theorem find_of_mem_nodup (L : List ChatLayer) (x : ChatLayer)
    (hmem : x ∈ L) (hnd : (L.map (fun l => l.id)).Nodup) :
    L.find? (fun l => l.id == x.id) = some x := by
  induction L with
  | nil => cases hmem
  | cons y rest ih =>
    rcases List.mem_cons.mp hmem with h | h
    · subst h
      simp [List.find?_cons]
    · have hy : y.id ≠ x.id := by
        intro he
        have hx : x.id ∈ rest.map (fun l => l.id) := List.mem_map_of_mem _ h
        rw [← he] at hx
        exact (List.nodup_cons.mp (by simpa using hnd)).1 hx
      simp only [List.find?_cons, show (y.id == x.id) = false by simpa using hy, cond_false]
      exact ih h (List.nodup_cons.mp (by simpa using hnd)).2

theorem mem_of_getElem?_chat (L : List ChatLayer) (i : Nat) (a : ChatLayer)
    (h : L[i]? = some a) : a ∈ L := by
  induction L generalizing i with
  | nil => simp at h
  | cons y rest ih =>
    cases i with
    | zero => simp at h; simp [h]
    | succ j =>
      simp only [List.getElem?_cons_succ] at h
      exact List.mem_cons_of_mem _ (ih j h)

/-- Selecting a layer that is already parsed (or has no text) leaves the
store's layers and the censor regions untouched: the computed-mirror writes
write back the values already present. -/
theorem selectChatLayer_no_reparse (s : EditorState) (fb : ChatLayer)
    (hfind : findLayer s fb.id = some fb)
    (hfb : fb.text = "" ∨ fb.parsedLines ≠ []) :
    (selectChatLayer fb.id s).chatLayers = s.chatLayers ∧
    (selectChatLayer fb.id s).censoredRegions = s.censoredRegions := by
  unfold selectChatLayer
  rw [hfind]
  dsimp only
  have hguard : ¬(fb.text ≠ "" ∧ fb.parsedLines = []) := by
    rcases hfb with h | h
    · intro hc; exact hc.1 h
    · intro hc; exact h hc.2
  rw [if_neg hguard]
  have hact : activeLayerId { s with selectedChatLayerId := some fb.id } = some fb.id := by
    unfold activeLayerId activeChatLayer
    dsimp only
    rw [show findLayer { s with selectedChatLayerId := some fb.id } fb.id = some fb from hfind]
    rfl
  have h3 : writeActiveText { s with selectedChatLayerId := some fb.id } fb.text =
      { s with selectedChatLayerId := some fb.id } := by
    unfold writeActiveText
    rw [hact]
    dsimp only
    rw [updateFirstLayer_eq_self fb.id _ s.chatLayers (fun x hx => by
      rw [show s.chatLayers.find? (fun l => l.id == fb.id) = some fb from hfind] at hx
      injection hx with he
      rw [← he])]
  rw [h3]
  have hfind4 : findLayer { s with selectedChatLayerId := some fb.id } fb.id = some fb := hfind
  have h4 : writeActiveParsedLines { s with selectedChatLayerId := some fb.id }
      (((findLayer { s with selectedChatLayerId := some fb.id } fb.id).map
        (fun l => l.parsedLines)).getD []) =
      { s with selectedChatLayerId := some fb.id } := by
    unfold writeActiveParsedLines
    rw [hact]
    dsimp only
    rw [updateFirstLayer_eq_self fb.id _ s.chatLayers (fun x hx => by
      rw [show s.chatLayers.find? (fun l => l.id == fb.id) = some fb from hfind] at hx
      injection hx with he
      rw [hfind4, ← he]
      rfl)]
  rw [h4]
  exact ⟨rfl, rfl⟩

/-- The two-layer state of the C8 counterexample: layer 2 (hidden, unparsed
text) becomes the fallback when layer 1 is removed. -/
def twoLayerState : EditorState :=
  ⟨[⟨1, "Layer 1", "", [], ⟨0, 0, 1⟩, true⟩, ⟨2, "Layer 2", "x", [], ⟨0, 0, 1⟩, false⟩],
    some 1, 3, [⟨0, 0, 1, .blur, 1⟩, ⟨0, 0, 1, .invisible, 2⟩], ⟨-1, -1, 0, 0, ""⟩,
    ⟨0, 0, 1⟩, false, ""⟩

/-- C8 counterexample: removing layer 1 re-parses the fallback layer 2
(which had text but no parsed lines): its `visible` flag flips from false to
true and its `parsedLines` are populated — another layer's fields changed. -/
theorem claim_C8_counterexample :
    ((findLayer twoLayerState 2).map (fun l => l.visible)) = some false ∧
    ((findLayer (removeChatLayer 1 twoLayerState) 2).map (fun l => l.visible)) =
      some true ∧
    ((findLayer (removeChatLayer 1 twoLayerState) 2).map (fun l => l.parsedLines)) =
      some [⟨0, "x", "white"⟩] := by
  refine ⟨by decide, by decide, by decide⟩

/-- C8 (amended): when `removeChatLayer(id)` actually removes a layer (at
least two layers present, id found at `index`, layer ids distinct), it
deletes exactly the censor regions whose `layerId` matches and no others;
the remaining layers are the original list with the removed entry spliced
out, with every field intact, PROVIDED the fallback layer that gets selected
afterwards has empty text or already-parsed lines — otherwise that one layer
is re-parsed (its `visible` flag and `parsedLines` change), as the
counterexample shows. -/
theorem claim_C8 (s : EditorState) (lid : Nat) (index : Nat)
    (hlen : ¬s.chatLayers.length ≤ 1)
    (hidx : s.chatLayers.findIdx? (fun l => l.id == lid) = some index)
    (hnodup : (s.chatLayers.map (fun l => l.id)).Nodup)
    (hfb : ∀ fb, ((if 1 ≤ index then (s.chatLayers.eraseIdx index)[index - 1]? else none).orElse
        (fun _ => (s.chatLayers.eraseIdx index)[0]?)) = some fb →
      fb.text = "" ∨ fb.parsedLines ≠ []) :
    (removeChatLayer lid s).censoredRegions =
      s.censoredRegions.filter (fun r => !(r.layerId == (lid : Int))) ∧
    (removeChatLayer lid s).chatLayers = s.chatLayers.eraseIdx index := by
  unfold removeChatLayer
  rw [if_neg hlen, hidx]
  dsimp only
  have herase_len : 1 ≤ (s.chatLayers.eraseIdx index).length := by
    rw [List.length_eraseIdx]
    split <;> omega
  have hne : s.chatLayers.eraseIdx index ≠ [] := by
    intro h0
    rw [h0] at herase_len
    simp at herase_len
  cases hfbeq : (if 1 ≤ index then (s.chatLayers.eraseIdx index)[index - 1]? else none).orElse
      (fun _ => (s.chatLayers.eraseIdx index)[0]?) with
  | none =>
    exfalso
    obtain ⟨e0, rest0, he0⟩ := List.exists_cons_of_ne_nil hne
    rcases hor : (if 1 ≤ index then (s.chatLayers.eraseIdx index)[index - 1]? else none) with
      _ | x
    · rw [hor] at hfbeq
      have h0 : (s.chatLayers.eraseIdx index)[0]? = none := hfbeq
      rw [he0] at h0
      simp at h0
    · rw [hor] at hfbeq
      have h0 : some x = none := hfbeq
      cases h0
  | some fb =>
    have hfbcond := hfb fb hfbeq
    have hmem : fb ∈ s.chatLayers.eraseIdx index := by
      rcases hor : (if 1 ≤ index then (s.chatLayers.eraseIdx index)[index - 1]? else none) with
        _ | x
      · rw [hor] at hfbeq
        have h0 : (s.chatLayers.eraseIdx index)[0]? = some fb := hfbeq
        exact mem_of_getElem?_chat _ 0 fb h0
      · rw [hor] at hfbeq
        have h0 : some x = some fb := hfbeq
        injection h0 with h0
        subst h0
        by_cases hi : 1 ≤ index
        · rw [if_pos hi] at hor
          exact mem_of_getElem?_chat _ (index - 1) x hor
        · rw [if_neg hi] at hor
          cases hor
    have hnd' : ((s.chatLayers.eraseIdx index).map (fun l => l.id)).Nodup :=
      hnodup.sublist (List.Sublist.map _ (List.eraseIdx_sublist _ _))
    have hfind1 : findLayer
        { s with
          chatLayers := s.chatLayers.eraseIdx index,
          censoredRegions := s.censoredRegions.filter (fun r => !(r.layerId == (lid : Int))) }
        fb.id = some fb :=
      find_of_mem_nodup _ fb hmem hnd'
    obtain ⟨hA, hB⟩ := selectChatLayer_no_reparse _ fb hfind1 hfbcond
    exact ⟨hB, hA⟩

/-- A concrete two-layer state whose fallback layer needs no re-parse. -/
def twoLayerParsedState : EditorState :=
  ⟨[⟨1, "Layer 1", "", [], ⟨0, 0, 1⟩, true⟩, ⟨2, "Layer 2", "", [], ⟨0, 0, 1⟩, false⟩],
    some 1, 3, [⟨0, 0, 1, .blur, 1⟩, ⟨0, 0, 1, .invisible, 2⟩], ⟨-1, -1, 0, 0, ""⟩,
    ⟨0, 0, 1⟩, false, ""⟩

/-- C8 witness: on the concrete state, removal deletes exactly layer 1's
regions and splices out exactly layer 1. -/
theorem claim_C8_witness :
    (removeChatLayer 1 twoLayerParsedState).censoredRegions =
      twoLayerParsedState.censoredRegions.filter (fun r => !(r.layerId == (1 : Int))) ∧
    (removeChatLayer 1 twoLayerParsedState).chatLayers =
      twoLayerParsedState.chatLayers.eraseIdx 0 :=
  claim_C8 twoLayerParsedState 1 0 (by decide) (by decide) (by decide) (by decide)

end Magician
